import Mathlib

/-!
Verification of the watcher scheduler (`src/core/observer/scheduler.js`).

The scheduler is shallowly embedded as a state machine.  Watchers are
referenced by their numeric id; an environment `Env : Nat → Watcher`
describes, for each id, the watcher's observable behaviour (whether it has a
`before` hook, which watcher ids its `run` enqueues, whether its `run`
throws, and the lifecycle data of its owning vm).  All module-level mutable
variables of the source file are collected in `SchedState`.  External side
effects (running a watcher, warnings, lifecycle hooks, devtools events) are
recorded in an event trace.  JavaScript exceptions are modelled by an error
component threaded through every call; the potentially unbounded flush loop
takes an explicit fuel argument and reports `outOfFuel` when it is
exhausted, which corresponds to no behaviour of the source.
-/

/-- The owning Vue instance of a watcher, with the fields the scheduler
reads: `_watcher` (modelled by the id of the vm's render watcher, ids being
unique), `_isMounted` and `_isDestroyed`. -/
structure Vm where
  watcherId : Option Nat
  isMounted : Bool
  isDestroyed : Bool
deriving Repr, DecidableEq

/-- Observable behaviour of a watcher: presence of a `before` hook, the ids
its `run` enqueues via `queueWatcher` (in call order), whether `run`
throws, and its vm. -/
structure Watcher where
  hasBefore : Bool
  runEnqueues : List Nat
  runThrows : Bool
  vm : Vm
deriving Repr, DecidableEq

/-- Watcher registry: ids are unique and stable, so a watcher is identified
by its id. -/
abbrev Env := Nat → Watcher

/-- An `afterFlush` callback: the watcher ids it enqueues and whether it
throws afterwards. -/
structure Callback where
  enq : List Nat
  throws : Bool
deriving Repr, DecidableEq

/-- The configuration the scheduler reads: `process.env.NODE_ENV !==
'production'` (`devMode`), `config.async`, `devtools && config.devtools`,
and the value `getNow()` returns during this flush. -/
structure SchedConfig where
  devMode : Bool
  async : Bool
  devtools : Bool
  now : Nat
deriving Repr, DecidableEq

/-- Externally observable events of one scheduler run. -/
inductive Event where
  | beforeHook (id : Nat)
  | run (id : Nat)
  | warnCircular (id : Nat)
  | afterFlushError
  | activated (e : Nat)
  | updated (id : Nat)
  | devtoolsFlush
deriving Repr, DecidableEq

/-- Exceptions the embedding can surface.  The first two are the
reentrancy-guard errors thrown by `flushSchedulerQueue`; `watcherError` is
a watcher's `run` throwing; `callbackError` an `afterFlush` callback
throwing; `outOfFuel` is the modelling artefact for exhausted fuel. -/
inductive SchedErr where
  | alreadyFlushing
  | flushWhileRunning
  | watcherError
  | callbackError
  | outOfFuel
deriving Repr, DecidableEq

/-- The module-level mutable state of `scheduler.js`: `queue`,
`activatedChildren` (entities as opaque numbers), `has` (dedup set as the
list of ids mapped to `true`), `circular` (association list id ↦ count),
`waiting`, `flushing`, `insideRun`, `index`, `afterFlushCallbacks`,
`currentFlushTimestamp`, plus a counter of `nextTick(flushSchedulerQueue)`
registrations standing for the opaque deferred-execution primitive. -/
structure SchedState where
  queue : List Nat
  activatedChildren : List Nat
  has : List Nat
  circular : List (Nat × Nat)
  waiting : Bool
  flushing : Bool
  insideRun : Bool
  index : Nat
  afterFlushCallbacks : List Callback
  currentFlushTimestamp : Nat
  scheduledFlushes : Nat
deriving Repr, DecidableEq

/-- Result of a scheduler entry point: final state, event trace so far, and
the exception escaping the call, if any. -/
structure SRes where
  st : SchedState
  tr : List Event
  err : Option SchedErr
deriving Repr, DecidableEq

/-- The initial module state. -/
def emptyState : SchedState where
  queue := []
  activatedChildren := []
  has := []
  circular := []
  waiting := false
  flushing := false
  insideRun := false
  index := 0
  afterFlushCallbacks := []
  currentFlushTimestamp := 0
  scheduledFlushes := 0

def MAX_UPDATE_COUNT : Nat := 100

/-- `maxUpdateCount = maxUpdateCount || MAX_UPDATE_COUNT`: a missing or
falsy (zero) argument selects the default limit. -/
def orDefaultLimit : Option Nat → Nat
  | none => MAX_UPDATE_COUNT
  | some 0 => MAX_UPDATE_COUNT
  | some (k + 1) => k + 1

/-- `circular[id] || 0`. -/
def circGet (c : List (Nat × Nat)) (id : Nat) : Nat :=
  match c.find? (fun p => p.1 == id) with
  | some p => p.2
  | none => 0

/-- `circular[id] = n`. -/
def circSet (c : List (Nat × Nat)) (id n : Nat) : List (Nat × Nat) :=
  match c with
  | [] => [(id, n)]
  | p :: r => if p.1 = id then (id, n) :: r else p :: circSet r id n

/-- The backward scan of `queueWatcher` (`let i = queue.length - 1; while
(i > index && queue[i].id > watcher.id) i--`), with the running value `i`
represented as `i + 1` so that the JavaScript value `-1` is `0`.  Returns
the insertion position `i + 1` of the final scan value. -/
def splicePosAux (queue : List Nat) (index id : Nat) : Nat → Nat
  | 0 => 0
  | k + 1 =>
    if index < k ∧ id < queue.getD k 0 then splicePosAux queue index id k
    else k + 1

/-- Position at which `queueWatcher` splices a new watcher while a flush is
active. -/
def splicePos (queue : List Nat) (index id : Nat) : Nat :=
  splicePosAux queue index id queue.length

/-- `queue.splice(pos, 0, id)` (a position past the end appends, as in
JavaScript). -/
def spliceInsert : Nat → Nat → List Nat → List Nat
  | 0, id, l => id :: l
  | _ + 1, id, [] => [id]
  | pos + 1, id, a :: r => a :: spliceInsert pos id r

/-- `vm._watcher === watcher && vm._isMounted && !vm._isDestroyed`. -/
def watcherUpdateEligible (env : Env) (wid : Nat) : Bool :=
  let w := env wid
  (w.vm.watcherId == some wid) && w.vm.isMounted && !w.vm.isDestroyed

/-- Events emitted by `callUpdatedHooks(queue, endIndex)`: iterate `i`
from `endIndex - 1` down to `0`, calling the `updated` hook for each
eligible watcher. -/
def callUpdatedHooks (env : Env) (q : List Nat) : Nat → List Event
  | 0 => []
  | i + 1 =>
    let wid := q.getD i 0
    (if watcherUpdateEligible env wid then [Event.updated wid] else [])
      ++ callUpdatedHooks env q i

/-- `resetSchedulerState()`. -/
def resetSchedulerState (cfg : SchedConfig) (st : SchedState) : SchedState :=
  let st1 :=
    if st.index = st.queue.length then
      { st with index := 0, queue := [], activatedChildren := [] }
    else
      { st with queue := st.queue.drop st.index, index := 0,
                activatedChildren := [] }
  let st2 := { st1 with has := [] }
  let st3 := if cfg.devMode then { st2 with circular := [] } else st2
  { st3 with waiting := false, flushing := false }

/-- The `finally` block of `flushSchedulerQueue`: snapshot the activated
queue, the queue and the cursor, reset the scheduler state, dispatch the
activated and updated hooks, and emit the devtools event; the pending
exception, if any, is rethrown afterwards. -/
def finallyPart (cfg : SchedConfig) (env : Env) (r : SRes) : SRes :=
  match r with
  | ⟨st, tr, err⟩ =>
    let activatedQueue := st.activatedChildren
    let updatedQueue := st.queue
    let endIndex := st.index
    let st1 := resetSchedulerState cfg st
    let tr1 := tr ++ activatedQueue.map Event.activated
        ++ callUpdatedHooks env updatedQueue endIndex
        ++ (if cfg.devtools then [Event.devtoolsFlush] else [])
    ⟨st1, tr1, err⟩

mutual

/-- `queueWatcher(watcher)`. -/
def queueWatcher (cfg : SchedConfig) (env : Env) (fuel wid : Nat)
    (st : SchedState) (tr : List Event) : SRes :=
  if wid ∈ st.has then ⟨st, tr, none⟩
  else
    match fuel with
    | 0 => ⟨st, tr, some SchedErr.outOfFuel⟩
    | f + 1 =>
      let st1 := { st with has := wid :: st.has }
      let st2 :=
        if st1.flushing = false then { st1 with queue := st1.queue ++ [wid] }
        else
          { st1 with
            queue := spliceInsert (splicePos st1.queue st1.index wid) wid
              st1.queue }
      requireFlush cfg env f st2 tr

/-- `requireFlush()`. -/
def requireFlush (cfg : SchedConfig) (env : Env) (fuel : Nat)
    (st : SchedState) (tr : List Event) : SRes :=
  if st.waiting then ⟨st, tr, none⟩
  else
    match fuel with
    | 0 => ⟨st, tr, some SchedErr.outOfFuel⟩
    | f + 1 =>
      let st1 := { st with waiting := true }
      if cfg.devMode ∧ cfg.async = false then
        flushSchedulerQueue cfg env f none st1 tr
      else
        ⟨{ st1 with scheduledFlushes := st1.scheduledFlushes + 1 }, tr, none⟩

/-- `flushSchedulerQueue(maxUpdateCount)`. -/
def flushSchedulerQueue (cfg : SchedConfig) (env : Env) (fuel : Nat)
    (m : Option Nat) (st : SchedState) (tr : List Event) : SRes :=
  if st.flushing then ⟨st, tr, some SchedErr.alreadyFlushing⟩
  else if st.insideRun then ⟨st, tr, some SchedErr.flushWhileRunning⟩
  else
    match fuel with
    | 0 => ⟨st, tr, some SchedErr.outOfFuel⟩
    | f + 1 =>
      let maxUC := orDefaultLimit m
      let st1 :=
        { st with currentFlushTimestamp := cfg.now, flushing := true }
      let st2 :=
        { st1 with queue := List.insertionSort (· ≤ ·) st1.queue, index := 0 }
      finallyPart cfg env (flushLoopOuter cfg env maxUC f st2 tr)

/-- The `while (queue.length - index || afterFlushCallbacks.length)`
loop. -/
def flushLoopOuter (cfg : SchedConfig) (env : Env) (maxUC fuel : Nat)
    (st : SchedState) (tr : List Event) : SRes :=
  match fuel with
  | 0 => ⟨st, tr, some SchedErr.outOfFuel⟩
  | f + 1 =>
    if st.queue.length - st.index ≠ 0 ∨ st.afterFlushCallbacks ≠ [] then
      match flushInner cfg env maxUC f st tr with
      | ⟨st', tr', some e⟩ => ⟨st', tr', some e⟩
      | ⟨st', tr', none⟩ =>
        match st'.afterFlushCallbacks with
        | [] => flushLoopOuter cfg env maxUC f st' tr'
        | cb :: rest =>
          let st1 := { st' with afterFlushCallbacks := rest }
          match runEnqueueList cfg env f cb.enq st1 tr' with
          | ⟨st2, tr2, some SchedErr.outOfFuel⟩ =>
            ⟨st2, tr2, some SchedErr.outOfFuel⟩
          | ⟨st2, tr2, some _⟩ =>
            flushLoopOuter cfg env maxUC f st2
              (tr2 ++ [Event.afterFlushError])
          | ⟨st2, tr2, none⟩ =>
            if cb.throws then
              flushLoopOuter cfg env maxUC f st2
                (tr2 ++ [Event.afterFlushError])
            else flushLoopOuter cfg env maxUC f st2 tr2
    else ⟨st, tr, none⟩

/-- The inner `for (; index < queue.length; index++)` scan. -/
def flushInner (cfg : SchedConfig) (env : Env) (maxUC fuel : Nat)
    (st : SchedState) (tr : List Event) : SRes :=
  match fuel with
  | 0 => ⟨st, tr, some SchedErr.outOfFuel⟩
  | f + 1 =>
    if st.index < st.queue.length then
      let wid := st.queue.getD st.index 0
      let w := env wid
      let tr1 := if w.hasBefore then tr ++ [Event.beforeHook wid] else tr
      let st1 := { st with has := st.has.erase wid }
      let tr2 := tr1 ++ [Event.run wid]
      if w.runThrows then ⟨st1, tr2, some SchedErr.watcherError⟩
      else
        match runEnqueueList cfg env f w.runEnqueues st1 tr2 with
        | ⟨st', tr', some e⟩ => ⟨st', tr', some e⟩
        | ⟨st', tr', none⟩ =>
          if cfg.devMode ∧ wid ∈ st'.has then
            let c := circGet st'.circular wid + 1
            let st2 := { st' with circular := circSet st'.circular wid c }
            if maxUC < c then
              ⟨{ st2 with index := st2.queue.length },
                tr' ++ [Event.warnCircular wid], none⟩
            else
              flushInner cfg env maxUC f { st2 with index := st2.index + 1 }
                tr'
          else
            flushInner cfg env maxUC f { st' with index := st'.index + 1 }
              tr'
    else ⟨st, tr, none⟩

/-- A watcher's `run` (resp. a callback body): the sequence of
`queueWatcher` calls it performs; an exception escaping one of them
aborts the remaining calls. -/
def runEnqueueList (cfg : SchedConfig) (env : Env) (fuel : Nat)
    (ids : List Nat) (st : SchedState) (tr : List Event) : SRes :=
  match ids with
  | [] => ⟨st, tr, none⟩
  | wid :: rest =>
    match fuel with
    | 0 => ⟨st, tr, some SchedErr.outOfFuel⟩
    | f + 1 =>
      match queueWatcher cfg env f wid st tr with
      | ⟨st', tr', some e⟩ => ⟨st', tr', some e⟩
      | ⟨st', tr', none⟩ => runEnqueueList cfg env f rest st' tr'

end

/-- `forceFlush(maxUpdateCount)`. -/
def forceFlush (cfg : SchedConfig) (env : Env) (fuel : Nat) (m : Option Nat)
    (st : SchedState) (tr : List Event) : SRes :=
  flushSchedulerQueue cfg env fuel m st tr

/-- `afterFlush(f)`. -/
def afterFlush (cfg : SchedConfig) (env : Env) (fuel : Nat) (cb : Callback)
    (st : SchedState) (tr : List Event) : SRes :=
  requireFlush cfg env fuel
    { st with afterFlushCallbacks := st.afterFlushCallbacks ++ [cb] } tr

/-- `queueActivatedComponent(vm)`. -/
def queueActivatedComponent (e : Nat) (st : SchedState) : SchedState :=
  { st with activatedChildren := st.activatedChildren ++ [e] }

/-- `isFlushing()`. -/
def isFlushing (st : SchedState) : Bool :=
  st.flushing

/-- `wrapWatcherGetter(f)`: set `insideRun`, call the wrapped function,
and restore the previous value even when the call throws. -/
def wrapWatcherGetter (f : SchedState → SRes) (st : SchedState) : SRes :=
  let previousInsideRun := st.insideRun
  let r := f { st with insideRun := true }
  ⟨{ r.st with insideRun := previousInsideRun }, r.tr, r.err⟩

/-- Ids of the watchers whose `run` was invoked, in invocation order. -/
def runsOf (tr : List Event) : List Nat :=
  tr.filterMap fun e =>
    match e with
    | Event.run i => some i
    | _ => none

/-- Ids of the watchers whose vm received the `updated` hook, in call
order. -/
def updatedOf (tr : List Event) : List Nat :=
  tr.filterMap fun e =>
    match e with
    | Event.updated i => some i
    | _ => none

/-- Ascending (non-strict) sortedness by position. -/
def sortedAsc (l : List Nat) : Prop :=
  ∀ j, j < l.length → ∀ i, i < j → l.getD i 0 ≤ l.getD j 0

instance (l : List Nat) : Decidable (sortedAsc l) := by
  unfold sortedAsc; infer_instance

/-- A watcher whose `run` neither enqueues nor throws. -/
def inertWatcher (env : Env) (wid : Nat) : Prop :=
  (env wid).runEnqueues = [] ∧ (env wid).runThrows = false

instance (env : Env) (wid : Nat) : Decidable (inertWatcher env wid) := by
  unfold inertWatcher; infer_instance

/-- The events produced by running a list of watchers whose `run` does not
enqueue: the optional `before` hook followed by the `run` itself. -/
def runTrace (env : Env) : List Nat → List Event
  | [] => []
  | wid :: rest =>
    (if (env wid).hasBefore then [Event.beforeHook wid] else [])
      ++ Event.run wid :: runTrace env rest

/-! Concrete fixtures used to instantiate the theorems below. -/

/-- Watchers that do nothing when run, owned by a live vm whose active
watcher they are. -/
def inertEnv : Env := fun n => ⟨false, [], false, ⟨some n, true, false⟩⟩

/-- Watcher 5 enqueues watcher 2 when it runs. -/
def envEnq52 : Env := fun n =>
  if n = 5 then ⟨false, [2], false, ⟨some 5, true, false⟩⟩ else inertEnv n

/-- Watcher 7 re-enqueues itself every time it runs. -/
def envSelf7 : Env := fun n =>
  if n = 7 then ⟨false, [7], false, ⟨none, true, false⟩⟩ else inertEnv n

/-- Watcher 5 re-enqueues itself and enqueues watcher 9 every time it
runs; watcher 9 is inert and its vm is mounted with 9 as active
watcher. -/
def envAbandon : Env := fun n =>
  if n = 5 then ⟨false, [5, 9], false, ⟨none, true, false⟩⟩ else inertEnv n

/-- Watcher 1 throws when run. -/
def envThrow1 : Env := fun n =>
  if n = 1 then ⟨false, [], true, ⟨some 1, true, false⟩⟩ else inertEnv n

/-- Development build, asynchronous flushing, no devtools. -/
def cfgDevAsync : SchedConfig := ⟨true, true, false, 7⟩

/-- Development build with `config.async = false`: `requireFlush` flushes
synchronously. -/
def cfgDevSync : SchedConfig := ⟨true, false, false, 7⟩

/-- The state after the given watcher ids were enqueued (in this order)
from the initial state while no flush was active. -/
def stQueued (q : List Nat) : SchedState :=
  { emptyState with queue := q, has := q.reverse, waiting := !q.isEmpty }

/-- A state captured mid-flush with an empty queue, as reached when a
flush is started by `afterFlush` with no watcher pending. -/
def stMidFlushEmpty : SchedState :=
  { emptyState with flushing := true, waiting := true }

/-- A state captured mid-flush: the cursor points at the running watcher 3
(already cleared from the dedup set) and watcher 7 is still pending. -/
def stMidFlush : SchedState :=
  { emptyState with
      queue := [3, 7], has := [7], flushing := true,
      waiting := true, index := 0 }

/-- A state captured at the end of a flush that stopped early: watcher 4
was processed (cursor 1), watcher 9 is an unprocessed leftover, entity 3
was activated, and watcher 4 repeated once. -/
def stPartial : SchedState :=
  { emptyState with
      queue := [4, 9], activatedChildren := [3],
      has := [9], circular := [(4, 1)], waiting := true, flushing := true,
      index := 1 }

/-! ### List helper lemmas -/

theorem getD_append_length (l r : List Nat) (a : Nat) :
    (l ++ a :: r).getD l.length 0 = a := by
  rw [List.getD_eq_getElem]
  · simp [List.getElem_append_right]
  · simp

theorem getD_of_length_le (l : List Nat) (n : Nat) (h : l.length ≤ n) :
    l.getD n 0 = 0 := by
  simp [List.getD, List.getElem?_eq_none h]

theorem take_succ_getD (l : List Nat) :
    ∀ n, n < l.length → l.take (n + 1) = l.take n ++ [l.getD n 0] := by
  induction l with
  | nil => intro n h; simp at h
  | cons a t ih =>
    intro n h
    cases n with
    | zero => simp
    | succ m =>
      simp only [List.take_succ_cons, List.getD_cons_succ]
      rw [ih m (by simpa using h)]
      simp

theorem drop_succ_of_drop_cons (l : List Nat) (n a : Nat) (t : List Nat)
    (h : l.drop n = a :: t) : l.drop (n + 1) = t := by
  rw [← List.tail_drop, h]
  rfl

theorem getD_of_drop_cons :
    ∀ (n : Nat) (l : List Nat) (a : Nat) (t : List Nat),
      l.drop n = a :: t → l.getD n 0 = a
  | 0, l, a, t, h => by
    rw [List.drop_zero] at h
    simp [h]
  | n + 1, [], a, t, h => by simp at h
  | n + 1, b :: l, a, t, h => by
    simp only [List.drop_succ_cons] at h
    simpa using getD_of_drop_cons n l a t h

theorem getD_drop_add :
    ∀ (n : Nat) (l : List Nat) (k : Nat),
      (l.drop n).getD k 0 = l.getD (n + k) 0
  | 0, l, k => by simp
  | n + 1, [], k => by simp
  | n + 1, b :: l, k => by
    rw [show n + 1 + k = (n + k) + 1 by omega]
    simp only [List.drop_succ_cons, List.getD_cons_succ]
    exact getD_drop_add n l k

theorem take_append_length_cons (A : List Nat) (b : Nat) (B : List Nat) :
    (A ++ b :: B).take (A.length + 1) = A ++ [b] := by
  have h : A ++ b :: B = (A ++ [b]) ++ B := by simp
  rw [h, show A.length + 1 = (A ++ [b]).length by simp, List.take_left]

theorem drop_append_length_cons (A : List Nat) (b : Nat) (B : List Nat) :
    (A ++ b :: B).drop (A.length + 1) = B := by
  have h : A ++ b :: B = (A ++ [b]) ++ B := by simp
  rw [h, show A.length + 1 = (A ++ [b]).length by simp, List.drop_left]

/-! ### Splice helper lemmas -/

theorem spliceInsert_eq_take_drop :
    ∀ (pos id : Nat) (l : List Nat), pos ≤ l.length →
      spliceInsert pos id l = l.take pos ++ id :: l.drop pos
  | 0, id, l, _ => by simp [spliceInsert]
  | pos + 1, id, [], h => by simp at h
  | pos + 1, id, a :: r, h => by
    simp only [spliceInsert, List.take_succ_cons, List.drop_succ_cons,
      List.cons_append]
    rw [spliceInsert_eq_take_drop pos id r (by simpa using h)]

theorem spliceInsert_length_append (id : Nat) (l : List Nat) :
    spliceInsert l.length id l = l ++ [id] := by
  rw [spliceInsert_eq_take_drop _ _ _ (Nat.le_refl _)]
  simp

theorem splicePosAux_le (q : List Nat) (idx id : Nat) :
    ∀ k, splicePosAux q idx id k ≤ k
  | 0 => Nat.le_refl 0
  | k + 1 => by
    unfold splicePosAux
    split
    · exact Nat.le_trans (splicePosAux_le q idx id k) (Nat.le_succ k)
    · exact Nat.le_refl _

theorem splicePos_le_length (q : List Nat) (idx id : Nat) :
    splicePos q idx id ≤ q.length :=
  splicePosAux_le q idx id q.length

theorem splicePosAux_scan_gt (q : List Nat) (idx id : Nat) :
    ∀ k, (∀ j, k ≤ j → j < q.length → id < q.getD j 0) →
      ∀ j, splicePosAux q idx id k ≤ j → j < q.length → id < q.getD j 0
  | 0, h => h
  | k + 1, h => by
    unfold splicePosAux
    split
    · rename_i hcond
      apply splicePosAux_scan_gt q idx id k
      intro j hkj hjl
      rcases Nat.eq_or_lt_of_le hkj with heq | hlt
      · rw [← heq]
        exact hcond.2
      · exact h j hlt hjl
    · exact fun j hj hjl => h j hj hjl

theorem splicePos_scan_gt (q : List Nat) (idx id : Nat) :
    ∀ j, splicePos q idx id ≤ j → j < q.length → id < q.getD j 0 :=
  splicePosAux_scan_gt q idx id q.length
    (fun _ hj hjl => absurd hjl (by omega))

theorem splicePosAux_stop (q : List Nat) (idx id : Nat) :
    ∀ k, idx + 1 < splicePosAux q idx id k →
      q.getD (splicePosAux q idx id k - 1) 0 ≤ id
  | 0 => by
    intro h
    simp [splicePosAux] at h
  | k + 1 => by
    unfold splicePosAux
    split
    · exact splicePosAux_stop q idx id k
    · rename_i hcond
      intro h
      have hk : idx < k := by omega
      have : ¬ id < q.getD k 0 := fun hlt => hcond ⟨hk, hlt⟩
      simpa using Nat.le_of_not_lt this

theorem splicePos_stop (q : List Nat) (idx id : Nat)
    (h : idx + 1 < splicePos q idx id) :
    q.getD (splicePos q idx id - 1) 0 ≤ id :=
  splicePosAux_stop q idx id q.length h

theorem splicePosAux_lower (q : List Nat) (idx id : Nat) :
    ∀ k, idx + 1 ≤ k → idx + 1 ≤ splicePosAux q idx id k
  | 0, h => by omega
  | k + 1, h => by
    unfold splicePosAux
    split
    · rename_i hcond
      exact splicePosAux_lower q idx id k (by omega)
    · omega

theorem splicePos_lower (q : List Nat) (idx id : Nat) (h : idx < q.length) :
    idx + 1 ≤ splicePos q idx id :=
  splicePosAux_lower q idx id q.length (by omega)

theorem splicePos_of_length_le (q : List Nat) (idx id : Nat)
    (h : q.length ≤ idx) : splicePos q idx id = q.length := by
  unfold splicePos
  cases hq : q.length with
  | zero => simp [splicePosAux]
  | succ k =>
    unfold splicePosAux
    rw [if_neg]
    intro hcond
    omega

theorem splicePos_ge_index (q : List Nat) (idx id : Nat)
    (h : idx ≤ q.length) : idx ≤ splicePos q idx id := by
  rcases Nat.lt_or_ge idx q.length with hlt | hge
  · exact Nat.le_of_succ_le (splicePos_lower q idx id hlt)
  · rw [splicePos_of_length_le q idx id hge]
    omega

theorem splicePosAux_all_gt (q : List Nat) (idx id : Nat) :
    ∀ k, idx + 1 ≤ k → (∀ j, idx < j → j < k → id < q.getD j 0) →
      splicePosAux q idx id k = idx + 1
  | 0, h, _ => by omega
  | k + 1, h, hall => by
    unfold splicePosAux
    by_cases hk : idx < k
    · rw [if_pos ⟨hk, hall k hk (Nat.lt_succ_self k)⟩]
      exact splicePosAux_all_gt q idx id k (by omega)
        (fun j hj hjk => hall j hj (by omega))
    · rw [if_neg (fun hcond => hk hcond.1)]
      omega

theorem splicePos_all_gt (q : List Nat) (idx id : Nat)
    (hidx : idx < q.length)
    (hall : ∀ j, idx < j → j < q.length → id < q.getD j 0) :
    splicePos q idx id = idx + 1 :=
  splicePosAux_all_gt q idx id q.length (by omega) hall

/-! ### Trace helper lemmas -/

theorem runsOf_append (a b : List Event) :
    runsOf (a ++ b) = runsOf a ++ runsOf b := by
  simp [runsOf]

theorem updatedOf_append (a b : List Event) :
    updatedOf (a ++ b) = updatedOf a ++ updatedOf b := by
  simp [updatedOf]

theorem runsOf_runTrace (env : Env) :
    ∀ l, runsOf (runTrace env l) = l := by
  intro l
  induction l with
  | nil => simp [runTrace, runsOf]
  | cons a t ih =>
    simp only [runTrace, runsOf] at ih ⊢
    split <;> simp [ih]

theorem updatedOf_runTrace (env : Env) :
    ∀ l, updatedOf (runTrace env l) = [] := by
  intro l
  induction l with
  | nil => simp [runTrace, updatedOf]
  | cons a t ih =>
    simp only [runTrace, updatedOf] at ih ⊢
    split <;> simp [ih]

theorem runsOf_map_activated (l : List Nat) :
    runsOf (l.map Event.activated) = [] := by
  induction l with
  | nil => simp [runsOf]
  | cons a t ih =>
    simp only [runsOf] at ih
    simp [runsOf, ih]

theorem updatedOf_map_activated (l : List Nat) :
    updatedOf (l.map Event.activated) = [] := by
  induction l with
  | nil => simp [updatedOf]
  | cons a t ih =>
    simp only [updatedOf] at ih
    simp [updatedOf, ih]

theorem runsOf_callUpdatedHooks (env : Env) (q : List Nat) :
    ∀ n, runsOf (callUpdatedHooks env q n) = [] := by
  intro n
  induction n with
  | zero => simp [callUpdatedHooks, runsOf]
  | succ m ih =>
    simp only [callUpdatedHooks, runsOf] at ih ⊢
    split <;> simp [ih]

theorem updatedOf_callUpdatedHooks_take (env : Env) (q : List Nat) :
    ∀ n, n ≤ q.length →
      updatedOf (callUpdatedHooks env q n)
        = ((q.take n).filter (fun w => watcherUpdateEligible env w)).reverse := by
  intro n
  induction n with
  | zero => simp [callUpdatedHooks, updatedOf]
  | succ m ih =>
    intro h
    simp only [callUpdatedHooks]
    rw [updatedOf_append, ih (by omega), take_succ_getD q m (by omega),
      List.filter_append, List.reverse_append]
    by_cases helig : watcherUpdateEligible env (q.getD m 0) = true
    · rw [if_pos helig]
      have helig2 : watcherUpdateEligible env (q[m]?.getD 0) = true := by
        simpa [List.getD] using helig
      have hf : List.filter (fun w => watcherUpdateEligible env w)
          [q.getD m 0] = [q.getD m 0] := by simp [List.getD, helig2]
      rw [hf]
      simp [updatedOf, List.getD, helig2]
    · rw [if_neg helig]
      rw [Bool.not_eq_true] at helig
      have helig2 : watcherUpdateEligible env (q[m]?.getD 0) = false := by
        simpa [List.getD] using helig
      have hf : List.filter (fun w => watcherUpdateEligible env w)
          [q.getD m 0] = [] := by simp [List.getD, helig2]
      rw [hf]
      simp [updatedOf]

/-! ### Circular counter lemmas -/

theorem circGet_circSet_self (c : List (Nat × Nat)) (id n : Nat) :
    circGet (circSet c id n) id = n := by
  induction c with
  | nil => simp [circGet, circSet]
  | cons p r ih =>
    by_cases hp : p.1 = id
    · simp [circSet, hp, circGet]
    · simp only [circSet, if_neg hp]
      unfold circGet
      rw [List.find?_cons_of_neg _ (by simp [hp])]
      unfold circGet at ih
      exact ih

/-! ### Sorted insertion -/

theorem getD_take_cons_drop :
    ∀ (m : Nat) (t : List Nat), m ≤ t.length → ∀ (id j : Nat),
      (t.take m ++ id :: t.drop m).getD j 0 =
        if j < m then t.getD j 0 else if j = m then id else t.getD (j - 1) 0
  | 0, t, _, id, j => by
    cases j with
    | zero => simp
    | succ i => simp
  | m + 1, [], h, id, j => by simp at h
  | m + 1, a :: t, h, id, j => by
    cases j with
    | zero => simp
    | succ i =>
      simp only [List.take_succ_cons, List.drop_succ_cons, List.cons_append,
        List.getD_cons_succ]
      rw [getD_take_cons_drop m t (by simpa using h) id i]
      by_cases h1 : i < m
      · rw [if_pos h1, if_pos (by omega)]
      · rw [if_neg h1]
        by_cases h2 : i = m
        · rw [if_pos h2, if_neg (by omega), if_pos (by omega)]
        · rw [if_neg h2, if_neg (by omega), if_neg (by omega)]
          rw [show i + 1 - 1 = i by omega]
          obtain ⟨i', rfl⟩ : ∃ i', i = i' + 1 := ⟨i - 1, by omega⟩
          simp

theorem length_take_cons_drop (t : List Nat) (id m : Nat) (hm : m ≤ t.length) :
    (t.take m ++ id :: t.drop m).length = t.length + 1 := by
  simp [List.length_take]
  omega

theorem sortedAsc_insert_mid (t : List Nat) (id m : Nat) (hm : m ≤ t.length)
    (hs : sortedAsc t)
    (hgt : ∀ j, m ≤ j → j < t.length → id < t.getD j 0)
    (hle : 1 ≤ m → t.getD (m - 1) 0 ≤ id) :
    sortedAsc (t.take m ++ id :: t.drop m) := by
  intro j hj i hij
  rw [length_take_cons_drop t id m hm] at hj
  rw [getD_take_cons_drop m t hm id i, getD_take_cons_drop m t hm id j]
  by_cases him1 : i < m
  · rw [if_pos him1]
    by_cases hjm1 : j < m
    · rw [if_pos hjm1]
      exact hs j (by omega) i hij
    · rw [if_neg hjm1]
      by_cases hjm2 : j = m
      · rw [if_pos hjm2]
        have hm1 : 1 ≤ m := by omega
        rcases Nat.lt_or_ge i (m - 1) with hi | hi
        · exact Nat.le_trans (hs (m - 1) (by omega) i hi) (hle hm1)
        · rw [show i = m - 1 by omega]
          exact hle hm1
      · rw [if_neg hjm2]
        exact hs (j - 1) (by omega) i (by omega)
  · rw [if_neg him1]
    by_cases him2 : i = m
    · rw [if_pos him2, if_neg (by omega), if_neg (by omega)]
      exact Nat.le_of_lt (hgt (j - 1) (by omega) (by omega))
    · rw [if_neg him2, if_neg (by omega), if_neg (by omega)]
      exact hs (j - 1) (by omega) (i - 1) (by omega)

theorem sortedAsc_spliceInsert_drop (q : List Nat) (idx id : Nat)
    (hidx : idx ≤ q.length)
    (hs : sortedAsc (q.drop (idx + 1))) :
    sortedAsc ((spliceInsert (splicePos q idx id) id q).drop (idx + 1)) := by
  rcases Nat.lt_or_ge idx q.length with hlt | hge
  · have hpl : splicePos q idx id ≤ q.length := splicePos_le_length q idx id
    have hpg : idx + 1 ≤ splicePos q idx id := splicePos_lower q idx id hlt
    set p := splicePos q idx id with hp
    rw [spliceInsert_eq_take_drop p id q hpl,
      List.drop_append_eq_append_drop, List.drop_take,
      show (q.take p).length = p by simp [List.length_take]; omega,
      show idx + 1 - p = 0 by omega, List.drop_zero]
    have hqdrop : q.drop p = (q.drop (idx + 1)).drop (p - (idx + 1)) := by
      rw [List.drop_drop]
      congr 1
      omega
    rw [hqdrop]
    apply sortedAsc_insert_mid (q.drop (idx + 1)) id (p - (idx + 1))
      (by simp [List.length_drop]; omega) hs
    · intro j hmj hjl
      rw [getD_drop_add]
      apply splicePos_scan_gt q idx id
      · omega
      · simp [List.length_drop] at hjl
        omega
    · intro h1
      rw [getD_drop_add, show idx + 1 + (p - (idx + 1) - 1) = p - 1 by omega]
      exact splicePos_stop q idx id (by omega)
  · rw [splicePos_of_length_le q idx id hge, spliceInsert_length_append,
      List.drop_eq_nil_of_le (by simp; omega)]
    intro j hj i hij
    simp at hj

/-! ### Step lemmas for the scheduler functions -/

theorem finallyPart_eq (cfg : SchedConfig) (env : Env) (st : SchedState)
    (tr : List Event) (err : Option SchedErr) :
    finallyPart cfg env ⟨st, tr, err⟩ =
      ⟨resetSchedulerState cfg st,
       tr ++ st.activatedChildren.map Event.activated
         ++ callUpdatedHooks env st.queue st.index
         ++ (if cfg.devtools then [Event.devtoolsFlush] else []), err⟩ := rfl

theorem resetSchedulerState_full (cfg : SchedConfig) (st : SchedState)
    (h : st.index = st.queue.length) :
    resetSchedulerState cfg st =
      ⟨[], [], [], if cfg.devMode then [] else st.circular, false, false,
       st.insideRun, 0, st.afterFlushCallbacks, st.currentFlushTimestamp,
       st.scheduledFlushes⟩ := by
  unfold resetSchedulerState
  rw [if_pos h]
  by_cases hd : cfg.devMode = true <;> simp [hd]

theorem resetSchedulerState_partial (cfg : SchedConfig) (st : SchedState)
    (h : st.index ≠ st.queue.length) :
    resetSchedulerState cfg st =
      ⟨st.queue.drop st.index, [], [],
       if cfg.devMode then [] else st.circular, false, false,
       st.insideRun, 0, st.afterFlushCallbacks, st.currentFlushTimestamp,
       st.scheduledFlushes⟩ := by
  unfold resetSchedulerState
  rw [if_neg h]
  by_cases hd : cfg.devMode = true <;> simp [hd]

theorem queueWatcher_mem (cfg : SchedConfig) (env : Env) (fuel wid : Nat)
    (st : SchedState) (tr : List Event) (h : wid ∈ st.has) :
    queueWatcher cfg env fuel wid st tr = ⟨st, tr, none⟩ := by
  unfold queueWatcher
  rw [if_pos h]

theorem queueWatcher_push (cfg : SchedConfig) (env : Env) (f wid : Nat)
    (st : SchedState) (tr : List Event) (h : wid ∉ st.has)
    (hfl : st.flushing = false) :
    queueWatcher cfg env (f + 1) wid st tr
      = requireFlush cfg env f
          ⟨st.queue ++ [wid], st.activatedChildren, wid :: st.has,
           st.circular, st.waiting, st.flushing, st.insideRun, st.index,
           st.afterFlushCallbacks, st.currentFlushTimestamp,
           st.scheduledFlushes⟩ tr := by
  unfold queueWatcher
  rw [if_neg h]
  simp only [hfl]
  rfl

theorem queueWatcher_splice (cfg : SchedConfig) (env : Env) (f wid : Nat)
    (st : SchedState) (tr : List Event) (h : wid ∉ st.has)
    (hfl : st.flushing = true) :
    queueWatcher cfg env (f + 1) wid st tr
      = requireFlush cfg env f
          ⟨spliceInsert (splicePos st.queue st.index wid) wid st.queue,
           st.activatedChildren, wid :: st.has,
           st.circular, st.waiting, st.flushing, st.insideRun, st.index,
           st.afterFlushCallbacks, st.currentFlushTimestamp,
           st.scheduledFlushes⟩ tr := by
  unfold queueWatcher
  rw [if_neg h]
  simp only [hfl]
  rfl

theorem requireFlush_waiting (cfg : SchedConfig) (env : Env) (fuel : Nat)
    (st : SchedState) (tr : List Event) (h : st.waiting = true) :
    requireFlush cfg env fuel st tr = ⟨st, tr, none⟩ := by
  unfold requireFlush
  rw [if_pos h]

theorem requireFlush_schedule (cfg : SchedConfig) (env : Env) (f : Nat)
    (st : SchedState) (tr : List Event) (h : st.waiting = false)
    (hconf : cfg.devMode = false ∨ cfg.async = true) :
    requireFlush cfg env (f + 1) st tr
      = ⟨⟨st.queue, st.activatedChildren, st.has, st.circular, true,
          st.flushing, st.insideRun, st.index, st.afterFlushCallbacks,
          st.currentFlushTimestamp, st.scheduledFlushes + 1⟩, tr, none⟩ := by
  have hstep : requireFlush cfg env (f + 1) st tr
      = if cfg.devMode = true ∧ cfg.async = false then
          flushSchedulerQueue cfg env f none
            ⟨st.queue, st.activatedChildren, st.has, st.circular, true,
             st.flushing, st.insideRun, st.index, st.afterFlushCallbacks,
             st.currentFlushTimestamp, st.scheduledFlushes⟩ tr
        else
          ⟨⟨st.queue, st.activatedChildren, st.has, st.circular, true,
            st.flushing, st.insideRun, st.index, st.afterFlushCallbacks,
            st.currentFlushTimestamp, st.scheduledFlushes + 1⟩, tr, none⟩ := by
    unfold requireFlush
    rw [if_neg (by simp [h])]
  have hcond : ¬ (cfg.devMode = true ∧ cfg.async = false) := by
    rcases hconf with h1 | h1 <;> simp [h1]
  rw [hstep, if_neg hcond]

theorem requireFlush_sync (cfg : SchedConfig) (env : Env) (f : Nat)
    (st : SchedState) (tr : List Event) (h : st.waiting = false)
    (hdev : cfg.devMode = true) (ha : cfg.async = false) :
    requireFlush cfg env (f + 1) st tr
      = flushSchedulerQueue cfg env f none
          ⟨st.queue, st.activatedChildren, st.has, st.circular, true,
           st.flushing, st.insideRun, st.index, st.afterFlushCallbacks,
           st.currentFlushTimestamp, st.scheduledFlushes⟩ tr := by
  have hstep : requireFlush cfg env (f + 1) st tr
      = if cfg.devMode = true ∧ cfg.async = false then
          flushSchedulerQueue cfg env f none
            ⟨st.queue, st.activatedChildren, st.has, st.circular, true,
             st.flushing, st.insideRun, st.index, st.afterFlushCallbacks,
             st.currentFlushTimestamp, st.scheduledFlushes⟩ tr
        else
          ⟨⟨st.queue, st.activatedChildren, st.has, st.circular, true,
            st.flushing, st.insideRun, st.index, st.afterFlushCallbacks,
            st.currentFlushTimestamp, st.scheduledFlushes + 1⟩, tr, none⟩ := by
    unfold requireFlush
    rw [if_neg (by simp [h])]
  rw [hstep, if_pos ⟨hdev, ha⟩]

theorem flushSchedulerQueue_flushing (cfg : SchedConfig) (env : Env)
    (fuel : Nat) (m : Option Nat) (st : SchedState) (tr : List Event)
    (h : st.flushing = true) :
    flushSchedulerQueue cfg env fuel m st tr
      = ⟨st, tr, some SchedErr.alreadyFlushing⟩ := by
  unfold flushSchedulerQueue
  rw [if_pos h]

theorem flushSchedulerQueue_insideRun (cfg : SchedConfig) (env : Env)
    (fuel : Nat) (m : Option Nat) (st : SchedState) (tr : List Event)
    (h1 : st.flushing = false) (h2 : st.insideRun = true) :
    flushSchedulerQueue cfg env fuel m st tr
      = ⟨st, tr, some SchedErr.flushWhileRunning⟩ := by
  unfold flushSchedulerQueue
  rw [if_neg (by simp [h1]), if_pos h2]

theorem flushSchedulerQueue_start (cfg : SchedConfig) (env : Env) (f : Nat)
    (m : Option Nat) (st : SchedState) (tr : List Event)
    (h1 : st.flushing = false) (h2 : st.insideRun = false) :
    flushSchedulerQueue cfg env (f + 1) m st tr
      = finallyPart cfg env (flushLoopOuter cfg env (orDefaultLimit m) f
          ⟨List.insertionSort (· ≤ ·) st.queue, st.activatedChildren,
           st.has, st.circular, st.waiting, true, st.insideRun, 0,
           st.afterFlushCallbacks, cfg.now, st.scheduledFlushes⟩ tr) := by
  unfold flushSchedulerQueue
  rw [if_neg (by simp [h1]), if_neg (by simp [h2])]

theorem flushLoopOuter_done (cfg : SchedConfig) (env : Env) (mU f : Nat)
    (st : SchedState) (tr : List Event)
    (h1 : st.queue.length ≤ st.index) (h2 : st.afterFlushCallbacks = []) :
    flushLoopOuter cfg env mU (f + 1) st tr = ⟨st, tr, none⟩ := by
  unfold flushLoopOuter
  rw [if_neg]
  intro hcond
  rcases hcond with hc | hc
  · omega
  · exact hc h2

theorem flushLoopOuter_succ (cfg : SchedConfig) (env : Env) (mU f : Nat)
    (st : SchedState) (tr : List Event) :
    flushLoopOuter cfg env mU (f + 1) st tr
      = if st.queue.length - st.index ≠ 0 ∨ st.afterFlushCallbacks ≠ [] then
          match flushInner cfg env mU f st tr with
          | ⟨st', tr', some e⟩ => ⟨st', tr', some e⟩
          | ⟨st', tr', none⟩ =>
            match st'.afterFlushCallbacks with
            | [] => flushLoopOuter cfg env mU f st' tr'
            | cb :: rest =>
              match runEnqueueList cfg env f cb.enq
                  { st' with afterFlushCallbacks := rest } tr' with
              | ⟨st2, tr2, some SchedErr.outOfFuel⟩ =>
                ⟨st2, tr2, some SchedErr.outOfFuel⟩
              | ⟨st2, tr2, some _⟩ =>
                flushLoopOuter cfg env mU f st2
                  (tr2 ++ [Event.afterFlushError])
              | ⟨st2, tr2, none⟩ =>
                if cb.throws then
                  flushLoopOuter cfg env mU f st2
                    (tr2 ++ [Event.afterFlushError])
                else flushLoopOuter cfg env mU f st2 tr2
        else ⟨st, tr, none⟩ := rfl

theorem flushLoopOuter_inner_ok (cfg : SchedConfig) (env : Env) (mU f : Nat)
    (st : SchedState) (tr tr' : List Event)
    (q' act' has' : List Nat) (circ' : List (Nat × Nat))
    (w' fl' ir' : Bool) (idx' ts' sched' : Nat)
    (hcond : st.index < st.queue.length ∨ st.afterFlushCallbacks ≠ [])
    (hres : flushInner cfg env mU f st tr
      = ⟨⟨q', act', has', circ', w', fl', ir', idx', [], ts', sched'⟩,
         tr', none⟩) :
    flushLoopOuter cfg env mU (f + 1) st tr
      = flushLoopOuter cfg env mU f
          ⟨q', act', has', circ', w', fl', ir', idx', [], ts', sched'⟩
          tr' := by
  have hcond' : st.queue.length - st.index ≠ 0 ∨ st.afterFlushCallbacks ≠ [] := by
    rcases hcond with hc | hc
    · left; omega
    · right; exact hc
  rw [flushLoopOuter_succ, if_pos hcond', hres]

theorem flushLoopOuter_inner_err (cfg : SchedConfig) (env : Env) (mU f : Nat)
    (st st' : SchedState) (tr tr' : List Event) (e : SchedErr)
    (hcond : st.index < st.queue.length ∨ st.afterFlushCallbacks ≠ [])
    (hres : flushInner cfg env mU f st tr = ⟨st', tr', some e⟩) :
    flushLoopOuter cfg env mU (f + 1) st tr = ⟨st', tr', some e⟩ := by
  have hcond' : st.queue.length - st.index ≠ 0 ∨ st.afterFlushCallbacks ≠ [] := by
    rcases hcond with hc | hc
    · left; omega
    · right; exact hc
  rw [flushLoopOuter_succ, if_pos hcond', hres]

theorem flushInner_done (cfg : SchedConfig) (env : Env) (mU f : Nat)
    (st : SchedState) (tr : List Event)
    (h : st.queue.length ≤ st.index) :
    flushInner cfg env mU (f + 1) st tr = ⟨st, tr, none⟩ := by
  unfold flushInner
  rw [if_neg (by omega)]

theorem runEnqueueList_nil (cfg : SchedConfig) (env : Env) (fuel : Nat)
    (st : SchedState) (tr : List Event) :
    runEnqueueList cfg env fuel [] st tr = ⟨st, tr, none⟩ := by
  unfold runEnqueueList
  rfl

theorem runEnqueueList_cons (cfg : SchedConfig) (env : Env) (f wid : Nat)
    (rest : List Nat) (st : SchedState) (tr : List Event) :
    runEnqueueList cfg env (f + 1) (wid :: rest) st tr
      = match queueWatcher cfg env f wid st tr with
        | ⟨st', tr', some e⟩ => ⟨st', tr', some e⟩
        | ⟨st', tr', none⟩ => runEnqueueList cfg env f rest st' tr' := rfl

theorem runEnqueueList_cons_ok (cfg : SchedConfig) (env : Env) (f wid : Nat)
    (rest : List Nat) (st st' : SchedState) (tr tr' : List Event)
    (hq : queueWatcher cfg env f wid st tr = ⟨st', tr', none⟩) :
    runEnqueueList cfg env (f + 1) (wid :: rest) st tr
      = runEnqueueList cfg env f rest st' tr' := by
  rw [runEnqueueList_cons, hq]

theorem runEnqueueList_allMem (cfg : SchedConfig) (env : Env) :
    ∀ (ids : List Nat) (fuel : Nat) (st : SchedState) (tr : List Event),
      (∀ o ∈ ids, o ∈ st.has) → ids.length ≤ fuel →
      runEnqueueList cfg env fuel ids st tr = ⟨st, tr, none⟩ := by
  intro ids
  induction ids with
  | nil => intro fuel st tr _ _; exact runEnqueueList_nil cfg env fuel st tr
  | cons wid rest ih =>
    intro fuel st tr hmem hlen
    obtain ⟨f, rfl⟩ : ∃ f, fuel = f + 1 :=
      ⟨fuel - 1, by simp at hlen; omega⟩
    rw [runEnqueueList_cons_ok cfg env f wid rest st st tr tr
      (queueWatcher_mem cfg env f wid st tr (hmem wid (by simp)))]
    exact ih f st tr (fun o ho => hmem o (by simp [ho]))
      (by simp at hlen; omega)

theorem flushInner_succ (cfg : SchedConfig) (env : Env) (mU f : Nat)
    (st : SchedState) (tr : List Event) :
    flushInner cfg env mU (f + 1) st tr
      = if st.index < st.queue.length then
          let wid := st.queue.getD st.index 0
          let w := env wid
          let tr1 := if w.hasBefore then tr ++ [Event.beforeHook wid] else tr
          let st1 := { st with has := st.has.erase wid }
          let tr2 := tr1 ++ [Event.run wid]
          if w.runThrows then ⟨st1, tr2, some SchedErr.watcherError⟩
          else
            match runEnqueueList cfg env f w.runEnqueues st1 tr2 with
            | ⟨st', tr', some e⟩ => ⟨st', tr', some e⟩
            | ⟨st', tr', none⟩ =>
              if cfg.devMode ∧ wid ∈ st'.has then
                let c := circGet st'.circular wid + 1
                let st2 := { st' with circular := circSet st'.circular wid c }
                if mU < c then
                  ⟨{ st2 with index := st2.queue.length },
                    tr' ++ [Event.warnCircular wid], none⟩
                else
                  flushInner cfg env mU f { st2 with index := st2.index + 1 }
                    tr'
              else
                flushInner cfg env mU f { st' with index := st'.index + 1 }
                  tr'
        else ⟨st, tr, none⟩ := rfl

theorem flushInner_step_throw (cfg : SchedConfig) (env : Env) (mU f wid : Nat)
    (st : SchedState) (tr : List Event)
    (hidx : st.index < st.queue.length)
    (hwid : st.queue.getD st.index 0 = wid)
    (ht : (env wid).runThrows = true) :
    flushInner cfg env mU (f + 1) st tr
      = ⟨⟨st.queue, st.activatedChildren, st.has.erase wid, st.circular,
          st.waiting, st.flushing, st.insideRun, st.index,
          st.afterFlushCallbacks, st.currentFlushTimestamp,
          st.scheduledFlushes⟩,
         (if (env wid).hasBefore then tr ++ [Event.beforeHook wid] else tr)
           ++ [Event.run wid],
         some SchedErr.watcherError⟩ := by
  rw [flushInner_succ, if_pos hidx]
  simp only [hwid, ht]
  rfl

theorem flushInner_step_inert (cfg : SchedConfig) (env : Env) (mU f wid : Nat)
    (st : SchedState) (tr : List Event)
    (hidx : st.index < st.queue.length)
    (hwid : st.queue.getD st.index 0 = wid)
    (ht : (env wid).runThrows = false)
    (henq : (env wid).runEnqueues = [])
    (hmem : wid ∉ st.has.erase wid) :
    flushInner cfg env mU (f + 1) st tr
      = flushInner cfg env mU f
          ⟨st.queue, st.activatedChildren, st.has.erase wid, st.circular,
           st.waiting, st.flushing, st.insideRun, st.index + 1,
           st.afterFlushCallbacks, st.currentFlushTimestamp,
           st.scheduledFlushes⟩
          ((if (env wid).hasBefore then tr ++ [Event.beforeHook wid] else tr)
            ++ [Event.run wid]) := by
  rw [flushInner_succ, if_pos hidx]
  simp only [hwid, ht, henq, runEnqueueList_nil, Bool.false_eq_true,
    if_false, hmem, and_false]

/-! ### An inert flush: no watcher enqueues or throws -/

theorem flushInner_inert (cfg : SchedConfig) (env : Env) (mU : Nat) :
    ∀ (l : List Nat) (fuel : Nat) (st : SchedState) (tr : List Event),
      st.queue.drop st.index = l →
      st.index ≤ st.queue.length →
      st.has.Nodup →
      (∀ wid ∈ l, inertWatcher env wid) →
      l.length + 1 ≤ fuel →
      ∃ has', has'.Nodup ∧
        flushInner cfg env mU fuel st tr
          = ⟨⟨st.queue, st.activatedChildren, has', st.circular, st.waiting,
              st.flushing, st.insideRun, st.queue.length,
              st.afterFlushCallbacks, st.currentFlushTimestamp,
              st.scheduledFlushes⟩, tr ++ runTrace env l, none⟩ := by
  intro l
  induction l with
  | nil =>
    intro fuel st tr hdrop hidx hnd _ hfuel
    obtain ⟨f, rfl⟩ : ∃ f, fuel = f + 1 := ⟨fuel - 1, by omega⟩
    have hlen : st.queue.length ≤ st.index := by
      by_contra hcon
      push_neg at hcon
      have := congrArg List.length hdrop
      simp [List.length_drop] at this
      omega
    refine ⟨st.has, hnd, ?_⟩
    rw [flushInner_done cfg env mU f st tr hlen]
    have hq : st.index = st.queue.length := by omega
    simp [runTrace, ← hq]
  | cons wid l' ih =>
    intro fuel st tr hdrop hidx hnd hin hfuel
    obtain ⟨f, rfl⟩ : ∃ f, fuel = f + 1 := ⟨fuel - 1, by simp at hfuel; omega⟩
    have hidxlt : st.index < st.queue.length := by
      by_contra hcon
      push_neg at hcon
      rw [List.drop_eq_nil_of_le hcon] at hdrop
      cases hdrop
    have hwid : st.queue.getD st.index 0 = wid :=
      getD_of_drop_cons st.index st.queue wid l' hdrop
    obtain ⟨henq, ht⟩ := hin wid (by simp)
    have hmem : wid ∉ st.has.erase wid := fun hm =>
      absurd (hnd.mem_erase_iff.mp hm).1 (by simp)
    rw [flushInner_step_inert cfg env mU f wid st tr hidxlt hwid ht henq hmem]
    obtain ⟨has', hnd', heq⟩ := ih f
      ⟨st.queue, st.activatedChildren, st.has.erase wid, st.circular,
       st.waiting, st.flushing, st.insideRun, st.index + 1,
       st.afterFlushCallbacks, st.currentFlushTimestamp, st.scheduledFlushes⟩
      ((if (env wid).hasBefore then tr ++ [Event.beforeHook wid] else tr)
        ++ [Event.run wid])
      (drop_succ_of_drop_cons st.queue st.index wid l' hdrop)
      (by simpa using hidxlt)
      (hnd.erase wid)
      (fun w hw => hin w (by simp [hw]))
      (by simp at hfuel ⊢; omega)
    refine ⟨has', hnd', ?_⟩
    rw [heq]
    congr 1
    simp only [runTrace]
    by_cases hb : (env wid).hasBefore = true <;> simp [hb]

theorem flushLoopOuter_inert (cfg : SchedConfig) (env : Env) (mU : Nat)
    (fuel : Nat) (st : SchedState) (tr : List Event)
    (hcb : st.afterFlushCallbacks = [])
    (hidx : st.index ≤ st.queue.length)
    (hnd : st.has.Nodup)
    (hin : ∀ wid ∈ st.queue.drop st.index, inertWatcher env wid)
    (hfuel : (st.queue.length - st.index) + 2 ≤ fuel) :
    ∃ has', has'.Nodup ∧
      flushLoopOuter cfg env mU fuel st tr
        = ⟨⟨st.queue, st.activatedChildren, has', st.circular, st.waiting,
            st.flushing, st.insideRun, st.queue.length, [],
            st.currentFlushTimestamp, st.scheduledFlushes⟩,
           tr ++ runTrace env (st.queue.drop st.index), none⟩ := by
  obtain ⟨f, rfl⟩ : ∃ f, fuel = f + 1 := ⟨fuel - 1, by omega⟩
  rcases Nat.lt_or_ge st.index st.queue.length with hlt | hge
  · obtain ⟨has', hnd', heq⟩ := flushInner_inert cfg env mU
      (st.queue.drop st.index) f st tr rfl hidx hnd hin
      (by simp [List.length_drop]; omega)
    rw [hcb] at heq
    rw [flushLoopOuter_inner_ok cfg env mU f st tr
      (tr ++ runTrace env (st.queue.drop st.index))
      st.queue st.activatedChildren has' st.circular st.waiting st.flushing
      st.insideRun st.queue.length st.currentFlushTimestamp
      st.scheduledFlushes (Or.inl hlt) heq]
    obtain ⟨g, rfl⟩ : ∃ g, f = g + 1 := ⟨f - 1, by omega⟩
    rw [flushLoopOuter_done cfg env mU g _ _ (by simp) rfl]
    exact ⟨has', hnd', rfl⟩
  · have heq : st.index = st.queue.length := by omega
    rw [flushLoopOuter_done cfg env mU f st tr (by omega) hcb]
    refine ⟨st.has, hnd, ?_⟩
    rw [List.drop_eq_nil_of_le hge]
    simp [runTrace, ← heq, ← hcb]

theorem flushSchedulerQueue_inert (cfg : SchedConfig) (env : Env)
    (fuel : Nat) (m : Option Nat) (st : SchedState) (tr : List Event)
    (hfl : st.flushing = false) (hir : st.insideRun = false)
    (hcb : st.afterFlushCallbacks = []) (hnd : st.has.Nodup)
    (hin : ∀ wid ∈ st.queue, inertWatcher env wid)
    (hfuel : st.queue.length + 3 ≤ fuel) :
    flushSchedulerQueue cfg env fuel m st tr
      = ⟨⟨[], [], [], (if cfg.devMode then [] else st.circular), false,
          false, false, 0, [], cfg.now, st.scheduledFlushes⟩,
         tr ++ runTrace env (List.insertionSort (· ≤ ·) st.queue)
           ++ st.activatedChildren.map Event.activated
           ++ callUpdatedHooks env (List.insertionSort (· ≤ ·) st.queue)
               (List.insertionSort (· ≤ ·) st.queue).length
           ++ (if cfg.devtools then [Event.devtoolsFlush] else []),
         none⟩ := by
  obtain ⟨f, rfl⟩ : ∃ f, fuel = f + 1 := ⟨fuel - 1, by omega⟩
  rw [flushSchedulerQueue_start cfg env f m st tr hfl hir, hcb]
  have hlen : (List.insertionSort (· ≤ ·) st.queue).length = st.queue.length :=
    (List.perm_insertionSort _ st.queue).length_eq
  obtain ⟨has', _, heqLoop⟩ := flushLoopOuter_inert cfg env (orDefaultLimit m)
    f ⟨List.insertionSort (· ≤ ·) st.queue, st.activatedChildren, st.has,
       st.circular, st.waiting, true, st.insideRun, 0, [], cfg.now,
       st.scheduledFlushes⟩ tr rfl (by simp) hnd
    (by
      intro wid hw
      simp only [List.drop_zero] at hw
      exact hin wid ((List.perm_insertionSort _ st.queue).mem_iff.mp hw))
    (by simp [hlen]; omega)
  rw [heqLoop, finallyPart_eq, resetSchedulerState_full _ _ rfl]
  simp [hir]

/-! ### A flush in which a watcher's run throws -/

theorem flushInner_throwPrefix (cfg : SchedConfig) (env : Env) (mU t : Nat)
    (rest : List Nat) :
    ∀ (l : List Nat) (fuel : Nat) (st : SchedState) (tr : List Event),
      st.queue.drop st.index = l ++ t :: rest →
      st.index ≤ st.queue.length →
      st.has.Nodup →
      (∀ wid ∈ l, inertWatcher env wid) →
      (env t).runThrows = true →
      l.length + 1 ≤ fuel →
      ∃ has',
        flushInner cfg env mU fuel st tr
          = ⟨⟨st.queue, st.activatedChildren, has', st.circular, st.waiting,
              st.flushing, st.insideRun, st.index + l.length,
              st.afterFlushCallbacks, st.currentFlushTimestamp,
              st.scheduledFlushes⟩,
             tr ++ runTrace env l
               ++ (if (env t).hasBefore then [Event.beforeHook t] else [])
               ++ [Event.run t],
             some SchedErr.watcherError⟩ := by
  intro l
  induction l with
  | nil =>
    intro fuel st tr hdrop hidx hnd _ ht hfuel
    obtain ⟨f, rfl⟩ : ∃ f, fuel = f + 1 := ⟨fuel - 1, by omega⟩
    simp only [List.nil_append] at hdrop
    have hidxlt : st.index < st.queue.length := by
      by_contra hcon
      push_neg at hcon
      rw [List.drop_eq_nil_of_le hcon] at hdrop
      cases hdrop
    have hwid : st.queue.getD st.index 0 = t :=
      getD_of_drop_cons st.index st.queue t rest hdrop
    rw [flushInner_step_throw cfg env mU f t st tr hidxlt hwid ht]
    refine ⟨st.has.erase t, ?_⟩
    by_cases hb : (env t).hasBefore = true <;> simp [hb, runTrace]
  | cons wid l' ih =>
    intro fuel st tr hdrop hidx hnd hin ht hfuel
    obtain ⟨f, rfl⟩ : ∃ f, fuel = f + 1 := ⟨fuel - 1, by simp at hfuel; omega⟩
    simp only [List.cons_append] at hdrop
    have hidxlt : st.index < st.queue.length := by
      by_contra hcon
      push_neg at hcon
      rw [List.drop_eq_nil_of_le hcon] at hdrop
      cases hdrop
    have hwid : st.queue.getD st.index 0 = wid :=
      getD_of_drop_cons st.index st.queue wid (l' ++ t :: rest) hdrop
    obtain ⟨henq, hth⟩ := hin wid (by simp)
    have hmem : wid ∉ st.has.erase wid := fun hm =>
      absurd (hnd.mem_erase_iff.mp hm).1 (by simp)
    rw [flushInner_step_inert cfg env mU f wid st tr hidxlt hwid hth henq hmem]
    obtain ⟨has', heq⟩ := ih f
      ⟨st.queue, st.activatedChildren, st.has.erase wid, st.circular,
       st.waiting, st.flushing, st.insideRun, st.index + 1,
       st.afterFlushCallbacks, st.currentFlushTimestamp, st.scheduledFlushes⟩
      ((if (env wid).hasBefore then tr ++ [Event.beforeHook wid] else tr)
        ++ [Event.run wid])
      (drop_succ_of_drop_cons st.queue st.index wid (l' ++ t :: rest) hdrop)
      (by simpa using hidxlt)
      (hnd.erase wid)
      (fun w hw => hin w (by simp [hw]))
      ht
      (by simp at hfuel ⊢; omega)
    refine ⟨has', ?_⟩
    have hidxeq : st.index + (wid :: l').length = (st.index + 1) + l'.length := by
      simp
      omega
    rw [heq, hidxeq]
    by_cases hb : (env wid).hasBefore = true <;> simp [hb, runTrace]

theorem flushSchedulerQueue_throw (cfg : SchedConfig) (env : Env)
    (fuel : Nat) (m : Option Nat) (st : SchedState) (tr : List Event)
    (l : List Nat) (t : Nat) (rest : List Nat)
    (hsort : List.insertionSort (· ≤ ·) st.queue = l ++ t :: rest)
    (hfl : st.flushing = false) (hir : st.insideRun = false)
    (hcb : st.afterFlushCallbacks = []) (hnd : st.has.Nodup)
    (hin : ∀ wid ∈ l, inertWatcher env wid)
    (ht : (env t).runThrows = true)
    (hfuel : l.length + 3 ≤ fuel) :
    flushSchedulerQueue cfg env fuel m st tr
      = ⟨⟨t :: rest, [], [], (if cfg.devMode then [] else st.circular),
          false, false, false, 0, [], cfg.now, st.scheduledFlushes⟩,
         tr ++ runTrace env l
           ++ (if (env t).hasBefore then [Event.beforeHook t] else [])
           ++ [Event.run t]
           ++ st.activatedChildren.map Event.activated
           ++ callUpdatedHooks env (l ++ t :: rest) l.length
           ++ (if cfg.devtools then [Event.devtoolsFlush] else []),
         some SchedErr.watcherError⟩ := by
  obtain ⟨f, rfl⟩ : ∃ f, fuel = f + 1 := ⟨fuel - 1, by omega⟩
  rw [flushSchedulerQueue_start cfg env f m st tr hfl hir, hcb, hsort]
  obtain ⟨g, rfl⟩ : ∃ g, f = g + 1 := ⟨f - 1, by omega⟩
  obtain ⟨has', heqInner⟩ := flushInner_throwPrefix cfg env
    (orDefaultLimit m) t rest l g
    ⟨l ++ t :: rest, st.activatedChildren, st.has, st.circular, st.waiting,
     true, st.insideRun, 0, [], cfg.now, st.scheduledFlushes⟩ tr
    rfl (by simp) hnd hin ht (by omega)
  rw [flushLoopOuter_inner_err cfg env (orDefaultLimit m) g _ _ tr _
    SchedErr.watcherError (Or.inl (by simp)) heqInner]
  rw [finallyPart_eq]
  rw [ resetSchedulerState_partial _ _ (by simp)]
  simp [hir, List.drop_left]

/-! ### A watcher that re-enqueues itself on every run -/

theorem flushInner_step_selfRequeue (cfg : SchedConfig) (env : Env)
    (mU f wid : Nat) (others : List Nat) (st : SchedState) (tr : List Event)
    (hdev : cfg.devMode = true)
    (hwait : st.waiting = true) (hfl : st.flushing = true)
    (hidx : st.index < st.queue.length)
    (hwid : st.queue.getD st.index 0 = wid)
    (hb : (env wid).hasBefore = false)
    (hth : (env wid).runThrows = false)
    (henq : (env wid).runEnqueues = wid :: others)
    (hnd : st.has.Nodup)
    (hothers : ∀ o ∈ others, o ∈ st.has)
    (htail : ∀ j, st.index < j → j < st.queue.length → wid < st.queue.getD j 0)
    (hf : others.length + 2 ≤ f) :
    flushInner cfg env mU (f + 1) st tr
      = if mU < circGet st.circular wid + 1 then
          ⟨⟨st.queue.take (st.index + 1) ++ wid :: st.queue.drop (st.index + 1),
            st.activatedChildren, wid :: st.has.erase wid,
            circSet st.circular wid (circGet st.circular wid + 1),
            st.waiting, st.flushing, st.insideRun,
            (st.queue.take (st.index + 1)
              ++ wid :: st.queue.drop (st.index + 1)).length,
            st.afterFlushCallbacks, st.currentFlushTimestamp,
            st.scheduledFlushes⟩,
           tr ++ [Event.run wid] ++ [Event.warnCircular wid], none⟩
        else
          flushInner cfg env mU f
            ⟨st.queue.take (st.index + 1) ++ wid :: st.queue.drop (st.index + 1),
             st.activatedChildren, wid :: st.has.erase wid,
             circSet st.circular wid (circGet st.circular wid + 1),
             st.waiting, st.flushing, st.insideRun, st.index + 1,
             st.afterFlushCallbacks, st.currentFlushTimestamp,
             st.scheduledFlushes⟩
            (tr ++ [Event.run wid]) := by
  obtain ⟨f2, rfl⟩ : ∃ f2, f = f2 + 1 := ⟨f - 1, by omega⟩
  obtain ⟨f3, rfl⟩ : ∃ f3, f2 = f3 + 1 := ⟨f2 - 1, by omega⟩
  have hmem : wid ∉ st.has.erase wid := fun hm =>
    absurd (hnd.mem_erase_iff.mp hm).1 (by simp)
  have hsp : splicePos st.queue st.index wid = st.index + 1 :=
    splicePos_all_gt st.queue st.index wid hidx htail
  have hqw : queueWatcher cfg env (f3 + 1) wid
      ⟨st.queue, st.activatedChildren, st.has.erase wid, st.circular,
       st.waiting, st.flushing, st.insideRun, st.index,
       st.afterFlushCallbacks, st.currentFlushTimestamp,
       st.scheduledFlushes⟩
      (tr ++ [Event.run wid])
      = ⟨⟨st.queue.take (st.index + 1) ++ wid :: st.queue.drop (st.index + 1),
          st.activatedChildren, wid :: st.has.erase wid, st.circular,
          st.waiting, st.flushing, st.insideRun, st.index,
          st.afterFlushCallbacks, st.currentFlushTimestamp,
          st.scheduledFlushes⟩, tr ++ [Event.run wid], none⟩ := by
    rw [queueWatcher_splice cfg env f3 wid _ _ (by simpa using hmem)
      (by simpa using hfl)]
    rw [requireFlush_waiting cfg env f3 _ _ (by simpa using hwait)]
    simp only [hsp]
    rw [spliceInsert_eq_take_drop (st.index + 1) wid st.queue (by omega)]
  have hrun : runEnqueueList cfg env (f3 + 1 + 1) (wid :: others)
      ⟨st.queue, st.activatedChildren, st.has.erase wid, st.circular,
       st.waiting, st.flushing, st.insideRun, st.index,
       st.afterFlushCallbacks, st.currentFlushTimestamp,
       st.scheduledFlushes⟩
      (tr ++ [Event.run wid])
      = ⟨⟨st.queue.take (st.index + 1) ++ wid :: st.queue.drop (st.index + 1),
          st.activatedChildren, wid :: st.has.erase wid, st.circular,
          st.waiting, st.flushing, st.insideRun, st.index,
          st.afterFlushCallbacks, st.currentFlushTimestamp,
          st.scheduledFlushes⟩, tr ++ [Event.run wid], none⟩ := by
    rw [runEnqueueList_cons_ok cfg env (f3 + 1) wid others _ _ _ _ hqw]
    apply runEnqueueList_allMem
    · intro o ho
      by_cases ho2 : o = wid
      · simp [ho2]
      · exact List.mem_cons_of_mem _
          ((List.mem_erase_of_ne ho2).mpr (hothers o ho))
    · simp at hf
      omega
  rw [flushInner_succ, if_pos hidx]
  simp only [hwid, hb, hth, henq, Bool.false_eq_true, if_false,
    List.append_nil]
  rw [hrun]
  simp only [hdev, true_and, List.mem_cons_self, if_true]

theorem flushInner_selfRequeue (cfg : SchedConfig) (env : Env) (wid : Nat)
    (others : List Nat)
    (hdev : cfg.devMode = true)
    (hb : (env wid).hasBefore = false)
    (hth : (env wid).runThrows = false)
    (henq : (env wid).runEnqueues = wid :: others) :
    ∀ (rem : Nat) (mU fuel : Nat) (st : SchedState) (tr : List Event)
      (c : Nat),
      st.waiting = true → st.flushing = true →
      st.index < st.queue.length →
      st.queue.getD st.index 0 = wid →
      st.has.Nodup →
      (∀ o ∈ others, o ∈ st.has) →
      (∀ j, st.index < j → j < st.queue.length → wid < st.queue.getD j 0) →
      circGet st.circular wid = c →
      mU = c + rem →
      rem + others.length + 3 ≤ fuel →
      ∃ circ' has',
        flushInner cfg env mU fuel st tr
          = ⟨⟨st.queue.take (st.index + 1)
                ++ (List.replicate (rem + 1) wid
                  ++ st.queue.drop (st.index + 1)),
              st.activatedChildren, has', circ', st.waiting, st.flushing,
              st.insideRun,
              (st.queue.take (st.index + 1)
                ++ (List.replicate (rem + 1) wid
                  ++ st.queue.drop (st.index + 1))).length,
              st.afterFlushCallbacks, st.currentFlushTimestamp,
              st.scheduledFlushes⟩,
             tr ++ (List.replicate (rem + 1) (Event.run wid)
               ++ [Event.warnCircular wid]),
             none⟩ := by
  intro rem
  induction rem with
  | zero =>
    intro mU fuel st tr c hwait hfl hidx hwid hnd hothers htail hcirc hmu hfuel
    obtain ⟨f, rfl⟩ : ∃ f, fuel = f + 1 := ⟨fuel - 1, by omega⟩
    rw [flushInner_step_selfRequeue cfg env mU f wid others st tr hdev hwait
      hfl hidx hwid hb hth henq hnd hothers htail (by omega)]
    rw [hcirc, if_pos (by omega)]
    exact ⟨circSet st.circular wid (c + 1), wid :: st.has.erase wid, by simp⟩
  | succ r ih =>
    intro mU fuel st tr c hwait hfl hidx hwid hnd hothers htail hcirc hmu hfuel
    obtain ⟨f, rfl⟩ : ∃ f, fuel = f + 1 := ⟨fuel - 1, by omega⟩
    rw [flushInner_step_selfRequeue cfg env mU f wid others st tr hdev hwait
      hfl hidx hwid hb hth henq hnd hothers htail (by omega)]
    rw [hcirc, if_neg (by omega)]
    have hmemerase : wid ∉ st.has.erase wid := fun hm =>
      absurd (hnd.mem_erase_iff.mp hm).1 (by simp)
    have htklen : (st.queue.take (st.index + 1)).length = st.index + 1 := by
      simp [List.length_take]
      omega
    obtain ⟨circ', has', heq⟩ := ih mU f
      ⟨st.queue.take (st.index + 1) ++ wid :: st.queue.drop (st.index + 1),
       st.activatedChildren, wid :: st.has.erase wid,
       circSet st.circular wid (c + 1),
       st.waiting, st.flushing, st.insideRun, st.index + 1,
       st.afterFlushCallbacks, st.currentFlushTimestamp,
       st.scheduledFlushes⟩
      (tr ++ [Event.run wid]) (c + 1)
      hwait hfl
      (by
        simp only [List.length_append, List.length_cons, htklen]
        omega)
      (by
        have hg := getD_append_length (st.queue.take (st.index + 1))
          (st.queue.drop (st.index + 1)) wid
        rw [htklen] at hg
        exact hg)
      (by
        simp only [List.nodup_cons]
        exact ⟨hmemerase, hnd.erase wid⟩)
      (fun o ho => by
        by_cases ho2 : o = wid
        · simp [ho2]
        · exact List.mem_cons_of_mem _
            ((List.mem_erase_of_ne ho2).mpr (hothers o ho)))
      (fun j hj1 hj2 => by
        have hj1' : st.index + 1 < j := hj1
        have hj2' : j < (st.queue.take (st.index + 1)
            ++ wid :: st.queue.drop (st.index + 1)).length := hj2
        have hlen2 : (st.queue.take (st.index + 1)
            ++ wid :: st.queue.drop (st.index + 1)).length
            = st.queue.length + 1 := by
          simp only [List.length_append, List.length_cons, htklen,
            List.length_drop]
          omega
        rw [hlen2] at hj2'
        show wid < (st.queue.take (st.index + 1)
          ++ wid :: st.queue.drop (st.index + 1)).getD j 0
        rw [getD_take_cons_drop (st.index + 1) st.queue (by omega) wid j]
        rw [if_neg (by omega), if_neg (by omega)]
        exact htail (j - 1) (by omega) (by omega))
      (circGet_circSet_self st.circular wid (c + 1))
      (by omega)
      (by omega)
    refine ⟨circ', has', ?_⟩
    rw [heq]
    have hq2 : (st.queue.take (st.index + 1)
        ++ wid :: st.queue.drop (st.index + 1)).take (st.index + 1 + 1)
        = st.queue.take (st.index + 1) ++ [wid] := by
      have hg := take_append_length_cons (st.queue.take (st.index + 1)) wid
        (st.queue.drop (st.index + 1))
      rw [htklen] at hg
      exact hg
    have hq3 : (st.queue.take (st.index + 1)
        ++ wid :: st.queue.drop (st.index + 1)).drop (st.index + 1 + 1)
        = st.queue.drop (st.index + 1) := by
      have hg := drop_append_length_cons (st.queue.take (st.index + 1)) wid
        (st.queue.drop (st.index + 1))
      rw [htklen] at hg
      exact hg
    simp only [hq2, hq3]
    have hqeq : (st.queue.take (st.index + 1) ++ [wid])
        ++ (List.replicate (r + 1) wid ++ st.queue.drop (st.index + 1))
        = st.queue.take (st.index + 1)
          ++ (List.replicate (r + 1 + 1) wid
            ++ st.queue.drop (st.index + 1)) := by
      simp [List.replicate_succ]
    have htreq : (tr ++ [Event.run wid])
        ++ (List.replicate (r + 1) (Event.run wid)
          ++ [Event.warnCircular wid])
        = tr ++ (List.replicate (r + 1 + 1) (Event.run wid)
          ++ [Event.warnCircular wid]) := by
      simp [List.replicate_succ]
    rw [hqeq, htreq]

theorem orDefaultLimit_pos (n : Nat) (h : 0 < n) :
    orDefaultLimit (some n) = n := by
  cases n with
  | zero => omega
  | succ k => rfl

theorem getD_mem_of_lt (l : List Nat) (j : Nat) (h : j < l.length) :
    l.getD j 0 ∈ l := by
  rw [List.getD_eq_getElem l 0 h]
  exact List.getElem_mem h

theorem flushSchedulerQueue_selfRequeue (cfg : SchedConfig) (env : Env)
    (wid : Nat) (others post : List Nat) (lim fuel : Nat)
    (st : SchedState) (tr : List Event)
    (hdev : cfg.devMode = true)
    (hb : (env wid).hasBefore = false)
    (hth : (env wid).runThrows = false)
    (henq : (env wid).runEnqueues = wid :: others)
    (hfl : st.flushing = false) (hir : st.insideRun = false)
    (hwait : st.waiting = true)
    (hcb : st.afterFlushCallbacks = [])
    (hsort : List.insertionSort (· ≤ ·) st.queue = wid :: post)
    (hpost : ∀ x ∈ post, wid < x)
    (hnd : st.has.Nodup)
    (hothers : ∀ o ∈ others, o ∈ st.has)
    (hcirc : circGet st.circular wid = 0)
    (hlim : 0 < lim)
    (hfuel : lim + others.length + 5 ≤ fuel) :
    flushSchedulerQueue cfg env fuel (some lim) st tr
      = ⟨⟨[], [], [], [], false, false, false, 0, [], cfg.now,
          st.scheduledFlushes⟩,
         tr ++ (List.replicate (lim + 1) (Event.run wid)
             ++ [Event.warnCircular wid])
           ++ st.activatedChildren.map Event.activated
           ++ callUpdatedHooks env (List.replicate (lim + 2) wid ++ post)
               (List.replicate (lim + 2) wid ++ post).length
           ++ (if cfg.devtools then [Event.devtoolsFlush] else []),
         none⟩ := by
  obtain ⟨F, rfl⟩ : ∃ F, fuel = F + 1 := ⟨fuel - 1, by omega⟩
  rw [flushSchedulerQueue_start cfg env F (some lim) st tr hfl hir, hcb,
    hsort, orDefaultLimit_pos lim hlim]
  obtain ⟨G, rfl⟩ : ∃ G, F = G + 1 := ⟨F - 1, by omega⟩
  obtain ⟨circ', has', heqInner⟩ := flushInner_selfRequeue cfg env wid others
    hdev hb hth henq lim lim G
    ⟨wid :: post, st.activatedChildren, st.has, st.circular, st.waiting, true,
     st.insideRun, 0, [], cfg.now, st.scheduledFlushes⟩ tr 0
    hwait rfl (by simp) (by simp) hnd hothers
    (fun j hj1 hj2 => by
      have hj1' : 0 < j := hj1
      have hj2' : j < post.length + 1 := by simpa using hj2
      obtain ⟨j', rfl⟩ : ∃ j', j = j' + 1 := ⟨j - 1, by omega⟩
      show wid < (wid :: post).getD (j' + 1) 0
      rw [List.getD_cons_succ]
      exact hpost _ (getD_mem_of_lt post j' (by omega)))
    hcirc (by omega) (by omega)
  have hqshape : (wid :: post).take (0 + 1)
      ++ (List.replicate (lim + 1) wid ++ (wid :: post).drop (0 + 1))
      = List.replicate (lim + 2) wid ++ post := by
    simp [List.replicate_succ]
  rw [hqshape] at heqInner
  rw [flushLoopOuter_inner_ok cfg env lim G _ tr
    (tr ++ (List.replicate (lim + 1) (Event.run wid)
      ++ [Event.warnCircular wid]))
    (List.replicate (lim + 2) wid ++ post) st.activatedChildren has' circ'
    st.waiting true st.insideRun
    (List.replicate (lim + 2) wid ++ post).length cfg.now
    st.scheduledFlushes (Or.inl (by simp)) heqInner]
  obtain ⟨G2, rfl⟩ : ∃ G2, G = G2 + 1 := ⟨G - 1, by omega⟩
  rw [flushLoopOuter_done cfg env lim G2 _ _ (by simp) rfl]
  rw [finallyPart_eq, resetSchedulerState_full _ _ rfl]
  simp [hdev, hir]

/-! ### Claim theorems -/

theorem sortedAsc_of_sorted (l : List Nat)
    (h : List.Sorted (· ≤ ·) l) : sortedAsc l := by
  intro j hj i hij
  rw [List.getD_eq_getElem l 0 (by omega), List.getD_eq_getElem l 0 hj]
  exact List.pairwise_iff_getElem.mp h i j (by omega) hj hij

theorem runsOf_hookSuffix (cfg : SchedConfig) (env : Env) (acts q : List Nat)
    (n : Nat) :
    runsOf (acts.map Event.activated ++ callUpdatedHooks env q n
      ++ (if cfg.devtools then [Event.devtoolsFlush] else [])) = [] := by
  rw [runsOf_append, runsOf_append, runsOf_map_activated,
    runsOf_callUpdatedHooks]
  by_cases hd : cfg.devtools = true <;> simp [hd, runsOf]

/-- C1: for a set of watchers all enqueued before the flush starts (none of
them enqueues further watchers or throws while running), the flush first
sorts the whole queue by ascending watcher id and then runs exactly those
watchers in that ascending-id order. -/
theorem flush_runs_in_ascending_id_order (cfg : SchedConfig) (env : Env)
    (fuel : Nat) (m : Option Nat) (st : SchedState) (tr : List Event)
    (hfl : st.flushing = false) (hir : st.insideRun = false)
    (hcb : st.afterFlushCallbacks = []) (hnd : st.has.Nodup)
    (hin : ∀ wid ∈ st.queue, inertWatcher env wid)
    (hfuel : st.queue.length + 3 ≤ fuel) :
    (flushSchedulerQueue cfg env fuel m st tr).err = none ∧
    runsOf (flushSchedulerQueue cfg env fuel m st tr).tr
      = runsOf tr ++ List.insertionSort (· ≤ ·) st.queue ∧
    sortedAsc (List.insertionSort (· ≤ ·) st.queue) ∧
    List.Perm (List.insertionSort (· ≤ ·) st.queue) st.queue := by
  rw [flushSchedulerQueue_inert cfg env fuel m st tr hfl hir hcb hnd hin hfuel]
  refine ⟨rfl, ?_, ?_, List.perm_insertionSort _ _⟩
  · show runsOf (tr ++ runTrace env (List.insertionSort (· ≤ ·) st.queue)
      ++ st.activatedChildren.map Event.activated
      ++ callUpdatedHooks env (List.insertionSort (· ≤ ·) st.queue)
          (List.insertionSort (· ≤ ·) st.queue).length
      ++ (if cfg.devtools then [Event.devtoolsFlush] else [])) = _
    rw [List.append_assoc, List.append_assoc, runsOf_append, runsOf_append,
      ← List.append_assoc (st.activatedChildren.map Event.activated),
      runsOf_hookSuffix, runsOf_runTrace]
    simp
  · exact sortedAsc_of_sorted _ (List.sorted_insertionSort _ st.queue)

/-- C1 witness: enqueueing watchers 3, 1, 2 and flushing runs them in the
order 1, 2, 3. -/
theorem flush_runs_in_ascending_id_order_witness :
    (flushSchedulerQueue cfgDevAsync inertEnv 6 none (stQueued [3, 1, 2])
      []).err = none ∧
    runsOf (flushSchedulerQueue cfgDevAsync inertEnv 6 none
      (stQueued [3, 1, 2]) []).tr = [1, 2, 3] := by
  obtain ⟨h1, h2, _, _⟩ := flush_runs_in_ascending_id_order cfgDevAsync
    inertEnv 6 none (stQueued [3, 1, 2]) [] (by decide) (by decide)
    (by decide) (by decide) (by decide) (by decide)
  refine ⟨h1, ?_⟩
  rw [h2]
  decide

/-- C2: `queueWatcher` is a no-op when the watcher's id is already in the
dedup set — the whole scheduler state, the queue and the trace are left
unchanged and no error is raised — and consequently enqueueing the same
(inert) watcher twice from the initial state and then flushing runs it
exactly once. -/
theorem queueWatcher_idempotent (cfg : SchedConfig) (env : Env) (wid : Nat)
    (hasync : cfg.async = true)
    (hinert : inertWatcher env wid) :
    (∀ (fuel : Nat) (st : SchedState) (tr : List Event), wid ∈ st.has →
      queueWatcher cfg env fuel wid st tr = ⟨st, tr, none⟩) ∧
    List.count wid (runsOf (flushSchedulerQueue cfg env 4 none
        (queueWatcher cfg env 2 wid
          (queueWatcher cfg env 2 wid emptyState []).st
          (queueWatcher cfg env 2 wid emptyState []).tr).st
        (queueWatcher cfg env 2 wid
          (queueWatcher cfg env 2 wid emptyState []).st
          (queueWatcher cfg env 2 wid emptyState []).tr).tr).tr) = 1 := by
  have he1 : queueWatcher cfg env 2 wid emptyState []
      = ⟨⟨[wid], [], [wid], [], true, false, false, 0, [], 0, 1⟩, [],
         none⟩ := by
    rw [queueWatcher_push cfg env 1 wid emptyState [] (by simp [emptyState])
      rfl]
    rw [requireFlush_schedule cfg env 0 _ _ rfl (Or.inr hasync)]
    simp [emptyState]
  have hmem' : wid ∈ (⟨[wid], [], [wid], [], true, false, false, 0, [], 0, 1⟩
      : SchedState).has := by simp
  refine ⟨fun fuel st tr h => queueWatcher_mem cfg env fuel wid st tr h, ?_⟩
  rw [he1]
  rw [queueWatcher_mem cfg env 2 wid _ _ hmem']
  rw [flushSchedulerQueue_inert cfg env 4 none _ [] rfl rfl rfl (by simp)
    (fun w hw => by
      simp at hw
      rw [hw]
      exact hinert)
    (by simp)]
  have hsingle : List.insertionSort (· ≤ ·) [wid] = [wid] := rfl
  rw [List.append_assoc, List.append_assoc, runsOf_append, runsOf_append,
    ← List.append_assoc (List.map Event.activated []),
    runsOf_hookSuffix, runsOf_runTrace, hsingle]
  simp [runsOf]

/-- C2 witness: watcher 4 is already scheduled in `stQueued [4]`, so a
second `queueWatcher` call changes nothing, and the double enqueue of the
inert watcher 4 from the initial state runs it exactly once in the
following flush. -/
theorem queueWatcher_idempotent_witness :
    queueWatcher cfgDevAsync inertEnv 5 4 (stQueued [4]) [] =
      ⟨stQueued [4], [], none⟩ ∧
    List.count 4 (runsOf (flushSchedulerQueue cfgDevAsync inertEnv 4 none
        (queueWatcher cfgDevAsync inertEnv 2 4
          (queueWatcher cfgDevAsync inertEnv 2 4 emptyState []).st
          (queueWatcher cfgDevAsync inertEnv 2 4 emptyState []).tr).st
        (queueWatcher cfgDevAsync inertEnv 2 4
          (queueWatcher cfgDevAsync inertEnv 2 4 emptyState []).st
          (queueWatcher cfgDevAsync inertEnv 2 4 emptyState []).tr).tr).tr)
      = 1 := by
  obtain ⟨h1, h2⟩ := queueWatcher_idempotent cfgDevAsync inertEnv 4 rfl
    (by decide)
  exact ⟨h1 5 (stQueued [4]) [] (by decide), h2⟩

/-- C3 counterexample: while a flush with an empty queue is active (reached
when an `afterFlush` callback enqueues the first watcher of the cycle), a
new watcher is spliced exactly at the cursor position 0, not at a position
strictly greater than the cursor — refuting the claim that every mid-flush
insertion lands strictly after the cursor. -/
theorem queueWatcher_insert_at_cursor :
    stMidFlushEmpty.flushing = true ∧
    4 ∉ stMidFlushEmpty.has ∧
    splicePos stMidFlushEmpty.queue stMidFlushEmpty.index 4
      = stMidFlushEmpty.index ∧
    ¬ stMidFlushEmpty.index
        < splicePos stMidFlushEmpty.queue stMidFlushEmpty.index 4 ∧
    (queueWatcher cfgDevAsync inertEnv 3 4 stMidFlushEmpty []).st.queue
      = [4] := by
  decide

/-- C3 amended: a `queueWatcher` call made while a flush is active with an
id not in the dedup set splices the watcher at the position computed by
the backward scan; that position is never before the cursor and is
strictly after the cursor whenever the cursor still lies inside the queue
(when the cursor has passed the end — possible only in the callback phase
or after a circular abort — the insertion lands exactly at the cursor,
where it is still pending).  If the part of the queue strictly after the
cursor was sorted by ascending id it remains sorted.  In particular a
watcher with id 5 that enqueues a watcher with id 2 while running causes
id 2 to run in the same cycle, after id 5. -/
theorem queueWatcher_during_flush_insert (cfg : SchedConfig) (env : Env)
    (f wid : Nat) (st : SchedState) (tr : List Event)
    (hmem : wid ∉ st.has) (hfl : st.flushing = true)
    (hwait : st.waiting = true) (hidx : st.index ≤ st.queue.length) :
    queueWatcher cfg env (f + 1) wid st tr
      = ⟨⟨spliceInsert (splicePos st.queue st.index wid) wid st.queue,
          st.activatedChildren, wid :: st.has, st.circular, st.waiting,
          st.flushing, st.insideRun, st.index, st.afterFlushCallbacks,
          st.currentFlushTimestamp, st.scheduledFlushes⟩, tr, none⟩ ∧
    st.index ≤ splicePos st.queue st.index wid ∧
    (st.index < st.queue.length →
      st.index < splicePos st.queue st.index wid) ∧
    (sortedAsc (st.queue.drop (st.index + 1)) →
      sortedAsc ((spliceInsert (splicePos st.queue st.index wid) wid
        st.queue).drop (st.index + 1))) ∧
    runsOf (flushSchedulerQueue cfgDevAsync envEnq52 12 none (stQueued [5])
      []).tr = [5, 2] := by
  refine ⟨?_, splicePos_ge_index st.queue st.index wid hidx,
    fun h => splicePos_lower st.queue st.index wid h,
    sortedAsc_spliceInsert_drop st.queue st.index wid hidx, by decide⟩
  rw [queueWatcher_splice cfg env f wid st tr hmem hfl]
  rw [requireFlush_waiting cfg env f _ _ (by simpa using hwait)]

/-- C3 witness: enqueueing watcher 5 while the flush runs watcher 3 with
pending tail `[7]` splices it at position 1 (after the cursor), keeping
the pending tail sorted. -/
theorem queueWatcher_during_flush_insert_witness :
    queueWatcher cfgDevAsync inertEnv 3 5 stMidFlush []
      = ⟨⟨[3, 5, 7], [], 5 :: [7], [], true, true, false, 0, [], 0, 0⟩,
         [], none⟩ ∧
    stMidFlush.index < splicePos stMidFlush.queue stMidFlush.index 5 ∧
    sortedAsc ((spliceInsert (splicePos stMidFlush.queue stMidFlush.index 5)
      5 stMidFlush.queue).drop (stMidFlush.index + 1)) := by
  obtain ⟨h1, _, h3, h4, _⟩ := queueWatcher_during_flush_insert cfgDevAsync
    inertEnv 2 5 stMidFlush [] (by decide) (by decide) (by decide)
    (by decide)
  refine ⟨?_, h3 (by decide), h4 (by decide)⟩
  rw [h1]
  decide

/-- C4: with circular detection enabled (development build), a watcher
that re-enqueues itself on every run (possibly together with already-
scheduled ids) makes the flush run it exactly `lim + 1` times — the count
incremented after each run first exceeds the limit on run `lim + 1` —
then emit the circular-update warning for that watcher; the cursor jumps
to the queue length so the whole remaining tail is abandoned, the state
is fully reset, and the call returns normally (no error, no infinite
loop): the only events after the warning are hook notifications, among
which no watcher runs. -/
theorem circular_update_aborts (cfg : SchedConfig) (env : Env)
    (wid : Nat) (others post : List Nat) (lim fuel : Nat)
    (st : SchedState) (tr : List Event)
    (hdev : cfg.devMode = true)
    (hb : (env wid).hasBefore = false)
    (hth : (env wid).runThrows = false)
    (henq : (env wid).runEnqueues = wid :: others)
    (hfl : st.flushing = false) (hir : st.insideRun = false)
    (hwait : st.waiting = true)
    (hcb : st.afterFlushCallbacks = [])
    (hsort : List.insertionSort (· ≤ ·) st.queue = wid :: post)
    (hpost : ∀ x ∈ post, wid < x)
    (hnd : st.has.Nodup)
    (hothers : ∀ o ∈ others, o ∈ st.has)
    (hcirc : circGet st.circular wid = 0)
    (hlim : 0 < lim)
    (hfuel : lim + others.length + 5 ≤ fuel) :
    ∃ hookEvents,
      flushSchedulerQueue cfg env fuel (some lim) st tr
        = ⟨⟨[], [], [], [], false, false, false, 0, [], cfg.now,
            st.scheduledFlushes⟩,
           tr ++ (List.replicate (lim + 1) (Event.run wid)
               ++ [Event.warnCircular wid]) ++ hookEvents,
           none⟩ ∧
      runsOf hookEvents = [] := by
  refine ⟨st.activatedChildren.map Event.activated
      ++ callUpdatedHooks env (List.replicate (lim + 2) wid ++ post)
          (List.replicate (lim + 2) wid ++ post).length
      ++ (if cfg.devtools then [Event.devtoolsFlush] else []), ?_,
    runsOf_hookSuffix cfg env st.activatedChildren _ _⟩
  rw [flushSchedulerQueue_selfRequeue cfg env wid others post lim fuel st tr
    hdev hb hth henq hfl hir hwait hcb hsort hpost hnd hothers hcirc hlim
    hfuel]
  simp [List.append_assoc]

/-- C4 witness: watcher 7 re-enqueues itself; with limit 2 the flush runs
it three times, warns, resets, and returns without error. -/
theorem circular_update_aborts_witness :
    ∃ hookEvents,
      flushSchedulerQueue cfgDevAsync envSelf7 7 (some 2) (stQueued [7]) []
        = ⟨⟨[], [], [], [], false, false, false, 0, [], 7, 0⟩,
           [] ++ (List.replicate 3 (Event.run 7)
               ++ [Event.warnCircular 7]) ++ hookEvents,
           none⟩ ∧
      runsOf hookEvents = [] :=
  circular_update_aborts cfgDevAsync envSelf7 7 [] [] 2 7 (stQueued [7]) []
    rfl rfl rfl rfl rfl rfl rfl rfl (by decide) (by decide) (by decide)
    (by decide) (by decide) (by decide) (by decide)

/-- C5: when a watcher's run throws after an inert prefix `l`, the error
propagates to the caller (`err = some watcherError`), but cleanup still
executed first: the processed prefix was dropped from the queue, the
dedup set was cleared, the flushing and waiting flags were cleared, and
the activated/updated hook dispatch ran over the snapshots; in particular
a subsequent flush of the post-exception state does not fail the
reentrancy guard. -/
theorem flush_throw_propagates_after_cleanup (cfg : SchedConfig) (env : Env)
    (fuel : Nat) (m : Option Nat) (st : SchedState) (tr : List Event)
    (l : List Nat) (t : Nat) (rest : List Nat)
    (hsort : List.insertionSort (· ≤ ·) st.queue = l ++ t :: rest)
    (hfl : st.flushing = false) (hir : st.insideRun = false)
    (hcb : st.afterFlushCallbacks = []) (hnd : st.has.Nodup)
    (hin : ∀ wid ∈ l, inertWatcher env wid)
    (ht : (env t).runThrows = true)
    (hfuel : l.length + 3 ≤ fuel) :
    (flushSchedulerQueue cfg env fuel m st tr).err
      = some SchedErr.watcherError ∧
    (flushSchedulerQueue cfg env fuel m st tr).st
      = ⟨t :: rest, [], [], (if cfg.devMode then [] else st.circular),
         false, false, false, 0, [], cfg.now, st.scheduledFlushes⟩ ∧
    (flushSchedulerQueue cfg env fuel m st tr).tr
      = tr ++ runTrace env l
          ++ (if (env t).hasBefore then [Event.beforeHook t] else [])
          ++ [Event.run t]
          ++ st.activatedChildren.map Event.activated
          ++ callUpdatedHooks env (l ++ t :: rest) l.length
          ++ (if cfg.devtools then [Event.devtoolsFlush] else []) ∧
    (flushSchedulerQueue cfgDevAsync envThrow1 3 none
        (flushSchedulerQueue cfgDevAsync envThrow1 3 none (stQueued [1])
          []).st []).err ≠ some SchedErr.alreadyFlushing := by
  rw [flushSchedulerQueue_throw cfg env fuel m st tr l t rest hsort hfl hir
    hcb hnd hin ht hfuel]
  exact ⟨rfl, rfl, rfl, by decide⟩

/-- C5 witness: watcher 1 throws; the flush reports the error while the
resulting state has an empty dedup set, cleared flags, and the throwing
watcher still pending, and flushing again does not hit the reentrancy
guard. -/
theorem flush_throw_propagates_after_cleanup_witness :
    (flushSchedulerQueue cfgDevAsync envThrow1 3 none (stQueued [1]) []).err
      = some SchedErr.watcherError ∧
    (flushSchedulerQueue cfgDevAsync envThrow1 3 none (stQueued [1]) []).st
      = ⟨[1], [], [], [], false, false, false, 0, [], 7, 0⟩ ∧
    (flushSchedulerQueue cfgDevAsync envThrow1 3 none
        (flushSchedulerQueue cfgDevAsync envThrow1 3 none (stQueued [1])
          []).st []).err ≠ some SchedErr.alreadyFlushing := by
  obtain ⟨h1, h2, -, h4⟩ := flush_throw_propagates_after_cleanup cfgDevAsync
    envThrow1 3 none (stQueued [1]) [] [] 1 [] (by decide) rfl rfl rfl
    (by decide) (by decide) rfl (by decide)
  refine ⟨h1, ?_, h4⟩
  rw [h2]
  decide

/-- C6: calling the flush pipeline while a flush is already active fails
with `alreadyFlushing`; calling it while `insideRun` is set fails with
`flushWhileRunning`; and invoking it from inside the evaluation wrapper
(which sets `insideRun`) fails the same way.  In every case the returned
state is exactly the input state (no timestamp captured, no flag set)
and the trace is unchanged (no watcher ran). -/
theorem flush_reentrancy_guards (cfg : SchedConfig) (env : Env)
    (fuel : Nat) (m : Option Nat) (st : SchedState) (tr : List Event) :
    (st.flushing = true →
      flushSchedulerQueue cfg env fuel m st tr
        = ⟨st, tr, some SchedErr.alreadyFlushing⟩) ∧
    (st.flushing = false → st.insideRun = true →
      flushSchedulerQueue cfg env fuel m st tr
        = ⟨st, tr, some SchedErr.flushWhileRunning⟩) ∧
    (st.flushing = false →
      wrapWatcherGetter (fun s => flushSchedulerQueue cfg env fuel m s tr)
        st = ⟨st, tr, some SchedErr.flushWhileRunning⟩) := by
  refine ⟨fun h => flushSchedulerQueue_flushing cfg env fuel m st tr h,
    fun h1 h2 => flushSchedulerQueue_insideRun cfg env fuel m st tr h1 h2,
    fun h1 => ?_⟩
  have hinner : flushSchedulerQueue cfg env fuel m
      { st with insideRun := true } tr
      = ⟨{ st with insideRun := true }, tr,
         some SchedErr.flushWhileRunning⟩ :=
    flushSchedulerQueue_insideRun cfg env fuel m _ tr h1 rfl
  simp only [wrapWatcherGetter, hinner]

/-- C6 witness: flushing during an active flush fails and leaves the
state untouched, and a flush attempted from inside the wrapper fails the
`insideRun` guard without touching the queued state. -/
theorem flush_reentrancy_guards_witness :
    flushSchedulerQueue cfgDevAsync inertEnv 5 none stMidFlushEmpty []
      = ⟨stMidFlushEmpty, [], some SchedErr.alreadyFlushing⟩ ∧
    wrapWatcherGetter
        (fun s => flushSchedulerQueue cfgDevAsync inertEnv 5 none s [])
        (stQueued [3])
      = ⟨stQueued [3], [], some SchedErr.flushWhileRunning⟩ := by
  obtain ⟨h1, -, -⟩ := flush_reentrancy_guards cfgDevAsync inertEnv 5 none
    stMidFlushEmpty []
  obtain ⟨-, -, h3⟩ := flush_reentrancy_guards cfgDevAsync inertEnv 5 none
    (stQueued [3]) []
  exact ⟨h1 rfl, h3 rfl⟩

/-- C7: the end-of-cycle reset empties the queue, the activated queue and
the cursor outright when the cursor reached the queue length, and
otherwise removes exactly the processed prefix `[0, cursor)` — the
unprocessed tail survives unchanged and in order — while the cursor goes
to 0; in both cases the dedup set is cleared for all ids, so a watcher
still physically pending in the surviving tail can be re-enqueued and
then occurs at least twice in the queue. -/
theorem reset_scheduler_state_spec (cfg : SchedConfig) (env : Env)
    (f wid : Nat) (st : SchedState) (tr : List Event) :
    (st.index = st.queue.length →
      resetSchedulerState cfg st =
        ⟨[], [], [], if cfg.devMode then [] else st.circular, false, false,
         st.insideRun, 0, st.afterFlushCallbacks, st.currentFlushTimestamp,
         st.scheduledFlushes⟩) ∧
    (st.index ≠ st.queue.length →
      resetSchedulerState cfg st =
        ⟨st.queue.drop st.index, [], [],
         if cfg.devMode then [] else st.circular, false, false,
         st.insideRun, 0, st.afterFlushCallbacks, st.currentFlushTimestamp,
         st.scheduledFlushes⟩) ∧
    ((resetSchedulerState cfg st).has = [] ∧
     (resetSchedulerState cfg st).index = 0 ∧
     (resetSchedulerState cfg st).waiting = false ∧
     (resetSchedulerState cfg st).flushing = false) ∧
    (wid ∈ st.queue.drop st.index → cfg.async = true →
      2 ≤ List.count wid
        (queueWatcher cfg env (f + 2) wid (resetSchedulerState cfg st)
          tr).st.queue) := by
  refine ⟨resetSchedulerState_full cfg st, resetSchedulerState_partial cfg st,
    ?_, ?_⟩
  · by_cases h : st.index = st.queue.length
    · rw [resetSchedulerState_full cfg st h]
      exact ⟨rfl, rfl, rfl, rfl⟩
    · rw [ resetSchedulerState_partial cfg st h]
      exact ⟨rfl, rfl, rfl, rfl⟩
  · intro hmem hasync
    by_cases h : st.index = st.queue.length
    · rw [h, List.drop_length] at hmem
      simp at hmem
    · rw [ resetSchedulerState_partial cfg st h]
      rw [queueWatcher_push cfg env (f + 1) wid _ tr (by simp) rfl]
      rw [requireFlush_schedule cfg env f _ tr rfl (Or.inr hasync)]
      have h1 : 0 < List.count wid (st.queue.drop st.index) :=
        List.count_pos_iff.mpr hmem
      have h2 : List.count wid (st.queue.drop st.index ++ [wid])
          = List.count wid (st.queue.drop st.index)
            + List.count wid [wid] := List.count_append wid _ _
      have h3 : List.count wid [wid] = 1 := by simp
      show 2 ≤ List.count wid (st.queue.drop st.index ++ [wid])
      omega

/-- C7 witness: resetting a state that stopped at cursor 1 of queue
`[4, 9]` keeps only the unprocessed `[9]` with an empty dedup set, and
re-enqueueing watcher 9 puts it in the queue twice. -/
theorem reset_scheduler_state_spec_witness :
    resetSchedulerState cfgDevAsync stPartial
      = ⟨[9], [], [], [], false, false, false, 0, [], 0, 0⟩ ∧
    2 ≤ List.count 9
      (queueWatcher cfgDevAsync inertEnv 5 9
        (resetSchedulerState cfgDevAsync stPartial) []).st.queue := by
  obtain ⟨-, h2, -, h4⟩ := reset_scheduler_state_spec cfgDevAsync inertEnv 3
    9 stPartial []
  refine ⟨?_, h4 (by decide) rfl⟩
  rw [h2 (by decide)]
  decide

/-- C8 counterexample: after a circular-update abort the cursor was set
to the queue length, so `callUpdatedHooks` iterates over the whole queue
snapshot — including abandoned entries that never ran.  Watcher 5
re-enqueues itself and watcher 9; with limit 1 the flush aborts, watcher
9 never runs, yet its vm receives the `updated` hook, refuting "jobs not
run this cycle receive no updated notification". -/
theorem updated_hook_for_unrun_watcher :
    9 ∉ runsOf (flushSchedulerQueue cfgDevAsync envAbandon 9 (some 1)
      (stQueued [5, 9]) []).tr ∧
    Event.updated 9 ∈ (flushSchedulerQueue cfgDevAsync envAbandon 9 (some 1)
      (stQueued [5, 9]) []).tr := by
  rw [flushSchedulerQueue_selfRequeue cfgDevAsync envAbandon 5 [9] [9] 1 9
    (stQueued [5, 9]) [] rfl rfl rfl rfl rfl rfl rfl rfl (by decide)
    (by decide) (by decide) (by decide) (by decide) (by decide) (by decide)]
  decide

/-- C8 amended: the updated hooks are dispatched in reverse order over
the first `endIndex` entries of the queue snapshot, keeping only watchers
that are still their vm's active watcher on a mounted, undestroyed vm —
where `endIndex` is the cursor value at the end of the flush, which
equals the number of watchers run only when no circular abort moved the
cursor.  In the normal path (no enqueues during the flush), the runs are
exactly the sorted queue and the updated notifications are exactly the
eligible run watchers in reverse run order. -/
theorem updated_hooks_reverse_eligible (cfg : SchedConfig) (env : Env)
    (fuel : Nat) (m : Option Nat) (st : SchedState) (tr : List Event)
    (hfl : st.flushing = false) (hir : st.insideRun = false)
    (hcb : st.afterFlushCallbacks = []) (hnd : st.has.Nodup)
    (hin : ∀ wid ∈ st.queue, inertWatcher env wid)
    (hfuel : st.queue.length + 3 ≤ fuel) :
    runsOf (flushSchedulerQueue cfg env fuel m st tr).tr
      = runsOf tr ++ List.insertionSort (· ≤ ·) st.queue ∧
    updatedOf (flushSchedulerQueue cfg env fuel m st tr).tr
      = updatedOf tr
        ++ ((List.insertionSort (· ≤ ·) st.queue).filter
            (fun w => watcherUpdateEligible env w)).reverse := by
  have heq := flushSchedulerQueue_inert cfg env fuel m st tr hfl hir hcb hnd
    hin hfuel
  have htr : (flushSchedulerQueue cfg env fuel m st tr).tr
      = tr ++ runTrace env (List.insertionSort (· ≤ ·) st.queue)
        ++ st.activatedChildren.map Event.activated
        ++ callUpdatedHooks env (List.insertionSort (· ≤ ·) st.queue)
            (List.insertionSort (· ≤ ·) st.queue).length
        ++ (if cfg.devtools then [Event.devtoolsFlush] else []) := by
    rw [heq]
  constructor
  · rw [htr, runsOf_append, runsOf_append, runsOf_append, runsOf_append,
      runsOf_runTrace, runsOf_map_activated, runsOf_callUpdatedHooks]
    by_cases hd : cfg.devtools = true <;> simp [hd, runsOf]
  · rw [htr, updatedOf_append, updatedOf_append, updatedOf_append,
      updatedOf_append, updatedOf_runTrace, updatedOf_map_activated,
      updatedOf_callUpdatedHooks_take env _ _ (le_refl _), List.take_length]
    by_cases hd : cfg.devtools = true <;> simp [hd, updatedOf]

/-- C8 witness: flushing inert watchers `[3, 1]` runs them as `[1, 3]`
and dispatches updated hooks in reverse order `[3, 1]`. -/
theorem updated_hooks_reverse_eligible_witness :
    runsOf (flushSchedulerQueue cfgDevAsync inertEnv 6 none
      (stQueued [3, 1]) []).tr = [1, 3] ∧
    updatedOf (flushSchedulerQueue cfgDevAsync inertEnv 6 none
      (stQueued [3, 1]) []).tr = [3, 1] := by
  obtain ⟨h1, h2⟩ := updated_hooks_reverse_eligible cfgDevAsync inertEnv 6
    none (stQueued [3, 1]) [] rfl rfl rfl (by decide) (by decide)
    (by decide)
  refine ⟨?_, ?_⟩
  · rw [h1]; decide
  · rw [h2]; decide

/-- C9: `requireFlush` is a no-op whenever the pending flag is already
set; otherwise it sets the pending flag and, in a development build with
`config.async` disabled, immediately runs the flush pipeline
synchronously, while in every other configuration it schedules one
deferred flush (the `nextTick` counter grows by one and nothing else
changes); and the pending flag is cleared by the end-of-flush scheduler
state reset. -/
theorem require_flush_idempotent (cfg : SchedConfig) (env : Env)
    (f : Nat) (st : SchedState) (tr : List Event) :
    (st.waiting = true → ∀ fuel,
      requireFlush cfg env fuel st tr = ⟨st, tr, none⟩) ∧
    (st.waiting = false → (cfg.devMode = false ∨ cfg.async = true) →
      requireFlush cfg env (f + 1) st tr
        = ⟨⟨st.queue, st.activatedChildren, st.has, st.circular, true,
            st.flushing, st.insideRun, st.index, st.afterFlushCallbacks,
            st.currentFlushTimestamp, st.scheduledFlushes + 1⟩, tr, none⟩) ∧
    (st.waiting = false → cfg.devMode = true → cfg.async = false →
      requireFlush cfg env (f + 1) st tr
        = flushSchedulerQueue cfg env f none
            ⟨st.queue, st.activatedChildren, st.has, st.circular, true,
             st.flushing, st.insideRun, st.index, st.afterFlushCallbacks,
             st.currentFlushTimestamp, st.scheduledFlushes⟩ tr) ∧
    (resetSchedulerState cfg st).waiting = false := by
  refine ⟨fun h fuel => requireFlush_waiting cfg env fuel st tr h,
    fun h hconf => requireFlush_schedule cfg env f st tr h hconf,
    fun h hdev ha => requireFlush_sync cfg env f st tr h hdev ha, ?_⟩
  by_cases h : st.index = st.queue.length
  · rw [resetSchedulerState_full cfg st h]
  · rw [ resetSchedulerState_partial cfg st h]

/-- C9 witness: with the pending flag set the call changes nothing; from
a fresh state it only sets the flag and schedules one deferred flush; in
a synchronous dev build it flushes immediately (the empty flush completes
and clears the flag); and resetting a mid-flush state clears the pending
flag. -/
theorem require_flush_idempotent_witness :
    requireFlush cfgDevAsync inertEnv 4 (stQueued [3]) []
      = ⟨stQueued [3], [], none⟩ ∧
    requireFlush cfgDevAsync inertEnv 4 emptyState []
      = ⟨⟨[], [], [], [], true, false, false, 0, [], 0, 1⟩, [], none⟩ ∧
    (requireFlush cfgDevSync inertEnv 4 emptyState []).st.waiting
      = false ∧
    (resetSchedulerState cfgDevAsync stPartial).waiting = false := by
  obtain ⟨h1, -, -, -⟩ := require_flush_idempotent cfgDevAsync inertEnv 3
    (stQueued [3]) []
  obtain ⟨-, h2, -, -⟩ := require_flush_idempotent cfgDevAsync inertEnv 3
    emptyState []
  obtain ⟨-, -, h3, -⟩ := require_flush_idempotent cfgDevSync inertEnv 3
    emptyState []
  obtain ⟨-, -, -, h4⟩ := require_flush_idempotent cfgDevAsync inertEnv 3
    stPartial []
  refine ⟨h1 rfl 4, ?_, ?_, h4⟩
  · rw [h2 rfl (Or.inr rfl)]
    decide
  · rw [h3 rfl rfl rfl]
    decide

theorem flushSchedulerQueue_congr_limit (cfg : SchedConfig) (env : Env)
    (fuel : Nat) (m m' : Option Nat)
    (h : orDefaultLimit m = orDefaultLimit m') (st : SchedState)
    (tr : List Event) :
    flushSchedulerQueue cfg env fuel m st tr
      = flushSchedulerQueue cfg env fuel m' st tr := by
  unfold flushSchedulerQueue
  rw [h]

/-- C10: a falsy `maxUpdateCount` argument — `0` or omitted — is replaced
by the default `MAX_UPDATE_COUNT = 100`, so `forceFlush 0` neither
disables nor tightens circular detection: it behaves exactly like
`forceFlush` with no argument and exactly like `forceFlush 100`. -/
theorem force_flush_default_limit (cfg : SchedConfig) (env : Env)
    (fuel : Nat) (st : SchedState) (tr : List Event) :
    orDefaultLimit none = MAX_UPDATE_COUNT ∧
    orDefaultLimit (some 0) = MAX_UPDATE_COUNT ∧
    forceFlush cfg env fuel (some 0) st tr
      = forceFlush cfg env fuel none st tr ∧
    forceFlush cfg env fuel (some 0) st tr
      = forceFlush cfg env fuel (some MAX_UPDATE_COUNT) st tr := by
  refine ⟨rfl, rfl, ?_, ?_⟩
  · exact flushSchedulerQueue_congr_limit cfg env fuel (some 0) none
      (by decide) st tr
  · exact flushSchedulerQueue_congr_limit cfg env fuel (some 0)
      (some MAX_UPDATE_COUNT) (by decide) st tr
